import Mathlib

/-!
A single-pass compiler front end: lexer, parser with scope table, TAC emitter, lowerer

Shallow embedding of `src/parser.cpp`.

Conventions of the embedding

* `std::string` is `String`; the lexer walks the source as a `List Char` with an
  explicit index `pos`, exactly as `src[pos]` does in the source. The character
  classes are those of the "C" locale, so a character outside ASCII is neither
  space, digit nor letter.
* `exit(1)` after a diagnostic is an `Except.error` carrying that diagnostic; in the
  namespace `Machine` it also carries the parser state at the exit.
* A read of `tokens[pos]` / `src[pos]` outside the container is the error `outOfBounds`.
* Recursive descent and `while` loops take a `fuel : Nat`; `outOfFuel` is an
  artefact of the embedding and is never a result of the program.
* `std::map<string, Symbol>` is an association list with unique keys; the parser
  observes it only through `find` and `operator[]`.
* `int` counters (`tempCount`, `line`, `scopeLevel`) are unbounded numbers; every
  increment consumes at least one input character or token, so the 32-bit range
  is not reached on inputs that fit in memory. Where the width of `tempCount`
  itself is the subject, the namespace `Machine` has the counter as the 32-bit
  `int` of the source.
-/

namespace CompilerLab

/-! ## Data model -/

inductive TokenType where
  | T_INT | T_FLOAT | T_DOUBLE | T_STRING | T_BOOL | T_CHAR
  | T_ID | T_NUM | T_IF | T_ELSE | T_RETURN | T_ASSIGN
  | T_PLUS | T_MINUS | T_MUL | T_DIV
  | T_LPAREN | T_RPAREN | T_LBRACE | T_RBRACE | T_SEMICOLON | T_SENTENCE
  | T_GT | T_LT | T_EQ | T_NEQ | T_AND | T_OR
  | T_WHILE | T_FOR | T_EOF
  deriving DecidableEq, Repr

open TokenType

structure Token where
  type : TokenType
  value : String
  deriving DecidableEq, Repr

structure Symbol where
  type : TokenType
  scopeLevel : Int
  initialized : Bool
  deriving DecidableEq, Repr

structure TACInstruction where
  op : String
  arg1 : String
  arg2 : String
  result : String
  deriving DecidableEq, Repr

/-! ## Diagnostics -/

inductive LexError where
  | unexpectedChar (c : Char) (line : Nat)
  | unterminatedString (line : Nat)
  | outOfBounds
  | outOfFuel
  deriving DecidableEq, Repr

inductive ParseError where
  | redefinition (name : String)
  | notDeclared (name : String) (line : Nat)
  | unexpectedToken (value : String) (line : Nat)
  | expectedIdentifier (line : Nat)
  | expectedNumberOrIdentifier (line : Nat)
  | expectedToken (expected : TokenType) (line : Nat)
  | outOfBounds
  | outOfFuel
  deriving DecidableEq, Repr

inductive CompileError where
  | lexical (e : LexError)
  | parsing (e : ParseError)
  deriving DecidableEq, Repr

/-! ## SymbolTable -/

structure SymbolTable where
  symbols : List (String × Symbol)
  deriving DecidableEq, Repr

namespace SymbolTable

def empty : SymbolTable := ⟨[]⟩

/-- The entry stored under `name`, `symbols.find(name)`. -/
def find? (t : SymbolTable) (name : String) : Option Symbol :=
  (t.symbols.find? (fun e => e.1 == name)).map Prod.snd

def lookup (t : SymbolTable) (name : String) : Bool :=
  (t.find? name).isSome

def insert (t : SymbolTable) (name : String) (type : TokenType) (scopeLevel : Int) :
    Except ParseError SymbolTable :=
  if t.find? name = none then
    .ok ⟨t.symbols ++ [(name, ⟨type, scopeLevel, false⟩)]⟩
  else
    .error (.redefinition name)

def markInitialized (t : SymbolTable) (name : String) : SymbolTable :=
  if t.lookup name then
    ⟨t.symbols.map (fun e => if e.1 == name then (e.1, { e.2 with initialized := true }) else e)⟩
  else
    t

end SymbolTable

/-! ## TACGenerator -/

structure TACGenerator where
  instructions : List TACInstruction
  tempCount : Nat
  deriving DecidableEq, Repr

namespace TACGenerator

def fresh : TACGenerator := ⟨[], 0⟩

/-- The name returned and the generator after `tempCount++`, exact as long as the
counter is below 2147483647; `Machine.TACGenerator.newTemp` has the increment at the
width of `int`. -/
def newTemp (g : TACGenerator) : String × TACGenerator :=
  ("t" ++ toString g.tempCount, { g with tempCount := g.tempCount + 1 })

def addInstruction (g : TACGenerator) (op arg1 arg2 result : String) : TACGenerator :=
  { g with instructions := g.instructions ++ [⟨op, arg1, arg2, result⟩] }

end TACGenerator

/-! ## Lexer -/

/-- C `isspace` in the "C" locale. -/
def isspace (c : Char) : Bool :=
  c == ' ' || c == '\t' || c == '\n' || c == '\x0b' || c == '\x0c' || c == '\r'

def isdigit (c : Char) : Bool := c.isDigit

def isalpha (c : Char) : Bool := c.isAlpha

def isalnum (c : Char) : Bool := c.isAlphanum

/-- Method `Lexer::peek`: the character after the current one, NUL at the end. -/
def peek (src : List Char) (pos : Nat) : Char :=
  (src[pos + 1]?).getD '\x00'

/-- Body of `while (src[pos] != '\n') pos++;` run on the characters from `pos` on.
At `pos = src.size()` the read yields NUL, the index moves on, and the next read
is outside the string. -/
def skipLineComment : List Char → Nat → Except LexError Nat
  | [], _ => .error .outOfBounds
  | c :: cs, pos => if c == '\n' then .ok pos else skipLineComment cs (pos + 1)

/-- Body of the block-comment loop, run on the characters from `pos` on: stops after
the first `*/`, or at the end of the input. -/
def skipBlockComment : List Char → Nat → Nat
  | [], pos => pos
  | c :: cs, pos =>
    if c == '*' && cs.head? == some '/' then pos + 2 else skipBlockComment cs (pos + 1)

/-- Method `consumeNumber`: the digits from `pos` on, and the index after them. -/
def consumeNumber (src : List Char) (pos : Nat) : String × Nat :=
  let run := (src.drop pos).takeWhile isdigit
  (String.mk run, pos + run.length)

/-- Method `consumeWord`: the letters and digits from `pos` on, and the index after them. -/
def consumeWord (src : List Char) (pos : Nat) : String × Nat :=
  let run := (src.drop pos).takeWhile isalnum
  (String.mk run, pos + run.length)

/-- Method `consumeString`: `pos` is at the opening quote. -/
def consumeString (src : List Char) (pos : Nat) (line : Nat) : Except LexError (String × Nat) :=
  let start := pos + 1
  let run := (src.drop start).takeWhile (fun c => c != '"')
  let stop := start + run.length
  if stop ≥ src.length then .error (.unterminatedString line)
  else .ok (String.mk run, stop + 1)

/-- The keyword table of `tokenize`. -/
def wordToken (word : String) : Token :=
  if word = "int" then ⟨T_INT, word⟩
  else if word = "float" then ⟨T_FLOAT, word⟩
  else if word = "double" then ⟨T_DOUBLE, word⟩
  else if word = "string" then ⟨T_STRING, word⟩
  else if word = "bool" then ⟨T_BOOL, word⟩
  else if word = "char" then ⟨T_CHAR, word⟩
  else if word = "if" then ⟨T_IF, word⟩
  else if word = "else" then ⟨T_ELSE, word⟩
  else if word = "return" then ⟨T_RETURN, word⟩
  else if word = "while" then ⟨T_WHILE, word⟩
  else if word = "for" then ⟨T_FOR, word⟩
  else ⟨T_ID, word⟩

/-- The `switch (current)` of `tokenize`: the token and the number of characters it
spans (the `pos++` inside a two-character case plus the `pos++` after the switch). -/
def punctToken (src : List Char) (pos : Nat) (line : Nat) (current : Char) :
    Except LexError (Token × Nat) :=
  if current == '=' then
    if peek src pos == '=' then .ok (⟨T_EQ, "=="⟩, 2) else .ok (⟨T_ASSIGN, "="⟩, 1)
  else if current == '+' then .ok (⟨T_PLUS, "+"⟩, 1)
  else if current == '-' then .ok (⟨T_MINUS, "-"⟩, 1)
  else if current == '*' then .ok (⟨T_MUL, "*"⟩, 1)
  else if current == '/' then .ok (⟨T_DIV, "/"⟩, 1)
  else if current == '(' then .ok (⟨T_LPAREN, "("⟩, 1)
  else if current == ')' then .ok (⟨T_RPAREN, ")"⟩, 1)
  else if current == '{' then .ok (⟨T_LBRACE, "\x7b"⟩, 1)
  else if current == '}' then .ok (⟨T_RBRACE, "\x7d"⟩, 1)
  else if current == ';' then .ok (⟨T_SEMICOLON, ";"⟩, 1)
  else if current == '>' then .ok (⟨T_GT, ">"⟩, 1)
  else if current == '<' then .ok (⟨T_LT, "<"⟩, 1)
  else if current == '&' then
    if peek src pos == '&' then .ok (⟨T_AND, "&&"⟩, 2) else .error (.unexpectedChar '&' line)
  else if current == '|' then
    if peek src pos == '|' then .ok (⟨T_OR, "||"⟩, 2) else .error (.unexpectedChar '|' line)
  else if current == '!' then
    if peek src pos == '=' then .ok (⟨T_NEQ, "!="⟩, 2) else .error (.unexpectedChar '!' line)
  else .error (.unexpectedChar current line)

/-- The main loop of `Lexer::tokenize`; returns the tokens and the final line number. -/
def tokenizeLoop : Nat → List Char → Nat → Nat → List Token → Except LexError (List Token × Nat)
  | 0, _, _, _, _ => .error .outOfFuel
  | fuel + 1, src, pos, line, tokens =>
    match src[pos]? with
    | none => .ok (tokens ++ [⟨T_EOF, ""⟩], line)
    | some current =>
      let line := if current == '\n' then line + 1 else line
      if isspace current then tokenizeLoop fuel src (pos + 1) line tokens
      else if current == '/' && peek src pos == '/' then
        match skipLineComment (src.drop (pos + 2)) (pos + 2) with
        | .error e => .error e
        | .ok pos => tokenizeLoop fuel src pos line tokens
      else if current == '/' && peek src pos == '*' then
        tokenizeLoop fuel src (skipBlockComment (src.drop (pos + 2)) (pos + 2)) line tokens
      else if isdigit current then
        let r := consumeNumber src pos
        tokenizeLoop fuel src r.2 line (tokens ++ [⟨T_NUM, r.1⟩])
      else if current == '"' then
        match consumeString src pos line with
        | .error e => .error e
        | .ok r => tokenizeLoop fuel src r.2 line (tokens ++ [⟨T_SENTENCE, r.1⟩])
      else if isalpha current then
        let r := consumeWord src pos
        tokenizeLoop fuel src r.2 line (tokens ++ [wordToken r.1])
      else
        match punctToken src pos line current with
        | .error e => .error e
        | .ok r => tokenizeLoop fuel src (pos + r.2) line (tokens ++ [r.1])

/-- The call `Lexer(src).tokenize()`, together with `getLineNumber()` afterwards. Every
iteration of the loop advances `pos`, so `length + 1` rounds are enough. -/
def tokenizeWithLine (src : String) : Except LexError (List Token × Nat) :=
  tokenizeLoop (src.length + 1) src.data 0 1 []

/-- Method `Lexer::tokenize`: the token sequence alone. -/
def tokenize (src : String) : Except LexError (List Token) :=
  (tokenizeWithLine src).map Prod.fst

/-! ## Parser -/

structure Parser where
  tokens : List Token
  pos : Nat
  /-- The value of `lexer.getLineNumber()`; tokenizing is over before parsing starts. -/
  line : Nat
  symbolTable : SymbolTable
  currentScopeLevel : Int
  tacGenerator : TACGenerator
  deriving DecidableEq, Repr

namespace Parser

/-- The constructor `Parser(tokens, lexer)`. -/
def init (tokens : List Token) (line : Nat) : Parser :=
  ⟨tokens, 0, line, SymbolTable.empty, 0, TACGenerator.fresh⟩

/-- The read `tokens[pos]`. -/
def cur (p : Parser) : Except ParseError Token :=
  match p.tokens[p.pos]? with
  | some t => .ok t
  | none => .error .outOfBounds

/-- The statement `pos++`. -/
def advance (p : Parser) : Parser := { p with pos := p.pos + 1 }

end Parser

def expect (expected : TokenType) (p : Parser) : Except ParseError Parser := do
  let t ← p.cur
  if t.type = expected then .ok p.advance
  else .error (.expectedToken expected p.line)

/-- The loop condition of `parseExpression`. -/
def isExprOp (t : TokenType) : Bool :=
  t = T_PLUS || t = T_MINUS || t = T_GT || t = T_LT || t = T_EQ || t = T_NEQ ||
    t = T_AND || t = T_OR

/-- The `switch (op)` of `parseExpression`. -/
def exprOpStr (op : TokenType) : String :=
  match op with
  | T_PLUS => "+"
  | T_MINUS => "-"
  | T_GT => ">"
  | T_LT => "<"
  | T_EQ => "=="
  | T_NEQ => "!="
  | T_AND => "&&"
  | T_OR => "||"
  | _ => "?"

/-- The loop condition of `parseTerm`. -/
def isTermOp (t : TokenType) : Bool :=
  t = T_MUL || t = T_DIV

mutual

def parseExpression : Nat → Parser → Except ParseError (String × Parser)
  | 0, _ => .error .outOfFuel
  | fuel + 1, p => do
    let r ← parseTerm fuel p
    parseExpressionLoop fuel r.1 r.2

/-- The `while` loop of `parseExpression`, entered with the current `lhs`. -/
def parseExpressionLoop : Nat → String → Parser → Except ParseError (String × Parser)
  | 0, _, _ => .error .outOfFuel
  | fuel + 1, lhs, p => do
    let t ← p.cur
    if isExprOp t.type then
      let op := t.type
      let r ← parseTerm fuel p.advance
      let rhs := r.1
      let nt := r.2.tacGenerator.newTemp
      let temp := nt.1
      let opStr := exprOpStr op
      let g := nt.2.addInstruction opStr lhs rhs temp
      parseExpressionLoop fuel temp { r.2 with tacGenerator := g }
    else
      .ok (lhs, p)

def parseTerm : Nat → Parser → Except ParseError (String × Parser)
  | 0, _ => .error .outOfFuel
  | fuel + 1, p => do
    let r ← parseFactor fuel p
    parseTermLoop fuel r.1 r.2

/-- The `while` loop of `parseTerm`, entered with the current `lhs`. -/
def parseTermLoop : Nat → String → Parser → Except ParseError (String × Parser)
  | 0, _, _ => .error .outOfFuel
  | fuel + 1, lhs, p => do
    let t ← p.cur
    if isTermOp t.type then
      let op := t.type
      let r ← parseFactor fuel p.advance
      let rhs := r.1
      let nt := r.2.tacGenerator.newTemp
      let temp := nt.1
      let opStr := if op = T_MUL then "*" else "/"
      let g := nt.2.addInstruction opStr lhs rhs temp
      parseTermLoop fuel temp { r.2 with tacGenerator := g }
    else
      .ok (lhs, p)

def parseFactor : Nat → Parser → Except ParseError (String × Parser)
  | 0, _ => .error .outOfFuel
  | fuel + 1, p => do
    let t ← p.cur
    if t.type = T_NUM then
      .ok (t.value, p.advance)
    else if t.type = T_ID then
      .ok (t.value, p.advance)
    else if t.type = T_LPAREN then
      let r ← parseExpression fuel p.advance
      let p ← expect T_RPAREN r.2
      .ok (r.1, p)
    else
      .error (.expectedNumberOrIdentifier p.line)

end

def parseDeclaration (p : Parser) : Except ParseError Parser := do
  let t ← p.cur
  let varType := t.type
  let p := p.advance
  let t ← p.cur
  if t.type = T_ID then
    let varName := t.value
    let st ← p.symbolTable.insert varName varType p.currentScopeLevel
    let p := { p with symbolTable := st }
    let p := p.advance
    expect T_SEMICOLON p
  else
    .error (.expectedIdentifier p.line)

def parseAssignment (fuel : Nat) (p : Parser) : Except ParseError Parser := do
  let t ← p.cur
  let varName := t.value
  if !p.symbolTable.lookup varName then
    .error (.notDeclared varName p.line)
  else
    let p := p.advance
    let p ← expect T_ASSIGN p
    let t ← p.cur
    let r ← (if t.type = T_SENTENCE then do
        let p := p.advance
        let p ← expect T_SEMICOLON p
        pure ("", p)
      else do
        let r ← parseExpression fuel p
        let p ← expect T_SEMICOLON r.2
        pure (r.1, p) : Except ParseError (String × Parser))
    let exprResult := r.1
    let p := r.2
    let p := { p with tacGenerator := p.tacGenerator.addInstruction "=" exprResult "" varName }
    .ok { p with symbolTable := p.symbolTable.markInitialized varName }

def parseReturnStatement (fuel : Nat) (p : Parser) : Except ParseError Parser := do
  let p ← expect T_RETURN p
  let r ← parseExpression fuel p
  expect T_SEMICOLON r.2

/-- The first test of `parseStatement`. -/
def isTypeKeyword (t : TokenType) : Bool :=
  t = T_INT || t = T_FLOAT || t = T_DOUBLE || t = T_STRING || t = T_CHAR || t = T_BOOL

mutual

def parseStatement : Nat → Parser → Except ParseError Parser
  | 0, _ => .error .outOfFuel
  | fuel + 1, p => do
    let t ← p.cur
    if isTypeKeyword t.type then parseDeclaration p
    else if t.type = T_ID then parseAssignment fuel p
    else if t.type = T_IF then parseIfStatement fuel p
    else if t.type = T_RETURN then parseReturnStatement fuel p
    else if t.type = T_LBRACE then parseBlock fuel p
    else if t.type = T_WHILE || t.type = T_FOR then parseLoop fuel p
    else .error (.unexpectedToken t.value p.line)

def parseBlock : Nat → Parser → Except ParseError Parser
  | 0, _ => .error .outOfFuel
  | fuel + 1, p => do
    let p ← expect T_LBRACE p
    let p ← parseBlockLoop fuel p
    expect T_RBRACE p

/-- The `while` loop of `parseBlock`. -/
def parseBlockLoop : Nat → Parser → Except ParseError Parser
  | 0, _ => .error .outOfFuel
  | fuel + 1, p => do
    let t ← p.cur
    if t.type ≠ T_RBRACE ∧ t.type ≠ T_EOF then
      let p ← parseStatement fuel p
      parseBlockLoop fuel p
    else
      .ok p

def parseIfStatement : Nat → Parser → Except ParseError Parser
  | 0, _ => .error .outOfFuel
  | fuel + 1, p => do
    let p ← expect T_IF p
    let p ← expect T_LPAREN p
    let r ← parseExpression fuel p
    let p ← expect T_RPAREN r.2
    let p ← parseStatement fuel p
    let t ← p.cur
    if t.type = T_ELSE then
      let p ← expect T_ELSE p
      parseStatement fuel p
    else
      .ok p

def parseLoop : Nat → Parser → Except ParseError Parser
  | 0, _ => .error .outOfFuel
  | fuel + 1, p => do
    let t ← p.cur
    if t.type = T_WHILE then
      let p ← expect T_WHILE p
      let p ← expect T_LPAREN p
      let r ← parseExpression fuel p
      let p ← expect T_RPAREN r.2
      parseStatement fuel p
    else if t.type = T_FOR then
      let p ← expect T_FOR p
      let p ← expect T_LPAREN p
      let p ← parseStatement fuel p
      let r ← parseExpression fuel p
      let p ← expect T_SEMICOLON r.2
      let p ← parseStatement fuel p
      let p ← expect T_RPAREN p
      parseStatement fuel p
    else
      .ok p

end

/-- The loop of `Parser::parseProgram`. -/
def parseProgram : Nat → Parser → Except ParseError Parser
  | 0, _ => .error .outOfFuel
  | fuel + 1, p => do
    let t ← p.cur
    if t.type ≠ T_EOF then
      let p ← parseStatement fuel p
      parseProgram fuel p
    else
      .ok p

/-- The front end of `main`: tokenize, then `parseProgram` on a new `Parser`. -/
def compile (fuel : Nat) (src : String) : Except CompileError Parser :=
  match tokenizeWithLine src with
  | .error e => .error (.lexical e)
  | .ok (tokens, line) =>
    match parseProgram fuel (Parser.init tokens line) with
    | .error e => .error (.parsing e)
    | .ok p => .ok p

/-! ## CodeGenerator -/

/-- Method `CodeGenerator::isNumber`. -/
def isNumber (s : String) : Bool :=
  !s.data.isEmpty && s.data.all isdigit

/-- The `getline` loop of `CodeGenerator::split` over the unread characters, with the
characters of the piece read so far. A delimiter ends a piece (possibly empty); at the
end of the text a last piece is produced only when at least one character was read. -/
def splitAux (delimiter : Char) : List Char → List Char → List String
  | [], token => if token.isEmpty then [] else [String.mk token]
  | c :: cs, token =>
    if c == delimiter then String.mk token :: splitAux delimiter cs []
    else splitAux delimiter cs (token ++ [c])

/-- Method `CodeGenerator::split`. -/
def split (str : String) (delimiter : Char) : List String :=
  splitAux delimiter str.data []

/-- The text `generateAssembly` builds from an instruction before splitting it again. -/
def instructionString (instr : TACInstruction) : String :=
  instr.result ++ " = " ++ instr.arg1 ++ " " ++ instr.op ++ " " ++ instr.arg2

/-- The test `tokens[0].find("L") == 0`. -/
def startsWithL (s : String) : Bool :=
  s.data.head? == some 'L'

/-- One round of the `for` loop of `generateAssembly`: the listing so far, extended by
the lines of `instr`. `tok i` is `tokens[i]`. -/
def lowerInstruction (assemblyCode : List String) (instr : TACInstruction) : List String :=
  let tokens := split (instructionString instr) ' '
  let tok (i : Nat) : String := tokens.getD i ""
  if tokens.length = 3 ∧ tok 1 = "=" then
    if isNumber (tok 2) then
      assemblyCode ++ ["mov dword [" ++ tok 0 ++ "], " ++ tok 2]
    else
      assemblyCode ++ ["mov eax, [" ++ tok 2 ++ "]", "mov [" ++ tok 0 ++ "], eax"]
  else if tokens.length = 5 ∧ (tok 3 = "+" ∨ tok 3 = "-" ∨ tok 3 = "*" ∨ tok 3 = "/") then
    let code := assemblyCode ++ ["mov eax, [" ++ tok 2 ++ "]"]
    let code :=
      if tok 3 = "+" then code ++ ["add eax, [" ++ tok 4 ++ "]"]
      else if tok 3 = "-" then code ++ ["sub eax, [" ++ tok 4 ++ "]"]
      else if tok 3 = "*" then code ++ ["imul eax, [" ++ tok 4 ++ "]"]
      else if tok 3 = "/" then
        code ++ ["mov edx, 0", "mov ebx, [" ++ tok 4 ++ "]", "idiv ebx"]
      else code
    code ++ ["mov [" ++ tok 0 ++ "], eax"]
  else if tokens.length ≥ 2 ∧ tok 0 = "return" then
    assemblyCode ++ ["mov eax, [" ++ tok 1 ++ "]", "ret"]
  else if tok 0 = "if" then
    assemblyCode ++ ["cmp [" ++ tok 1 ++ "], 0", "jne " ++ tok 3]
  else if startsWithL (tok 0) then
    assemblyCode ++ [tok 0 ++ ":"]
  else if tok 0 = "goto" then
    assemblyCode ++ ["jmp " ++ tok 1]
  else
    assemblyCode

/-- Method `CodeGenerator::generateAssembly`: the lines it prints, in order. -/
def generateAssembly (intermediateCode : List TACInstruction) : List String :=
  intermediateCode.foldl lowerInstruction []

/-! ## Auxiliary notions for the statements below -/

deriving instance DecidableEq for Except

/-- Relation `Stable x y`: when `x` did not run out of fuel, `y` is the same result. -/
def Stable {α : Type} (x y : Except ParseError α) : Prop :=
  x ≠ .error .outOfFuel → y = x

/-- The token list of `int x; x = 5; int y; y = x + 2;`. -/
def exampleTokens : List Token :=
  [⟨T_INT, "int"⟩, ⟨T_ID, "x"⟩, ⟨T_SEMICOLON, ";"⟩,
   ⟨T_ID, "x"⟩, ⟨T_ASSIGN, "="⟩, ⟨T_NUM, "5"⟩, ⟨T_SEMICOLON, ";"⟩,
   ⟨T_INT, "int"⟩, ⟨T_ID, "y"⟩, ⟨T_SEMICOLON, ";"⟩,
   ⟨T_ID, "y"⟩, ⟨T_ASSIGN, "="⟩, ⟨T_ID, "x"⟩, ⟨T_PLUS, "+"⟩, ⟨T_NUM, "2"⟩, ⟨T_SEMICOLON, ";"⟩,
   ⟨T_EOF, ""⟩]

/-- Test `holdsOnOk x Q`: `x` is a success and its value passes the test `Q`. -/
def holdsOnOk {ε α : Type} (x : Except ε α) (Q : α → Bool) : Bool :=
  match x with
  | .ok a => Q a
  | .error _ => false

/-- Relation `Post x Q`: when `x` is a success, its value satisfies `Q`. -/
def Post {α : Type} (x : Except ParseError α) (Q : α → Prop) : Prop :=
  ∀ a, x = .ok a → Q a

/-- Relation `Frame p q`: `q` has the tokens, line, scope table and scope level of `p`. -/
def Frame (p q : Parser) : Prop :=
  q.tokens = p.tokens ∧ q.line = p.line ∧ q.symbolTable = p.symbolTable ∧
    q.currentScopeLevel = p.currentScopeLevel

/-- The token list of `int x; x = 5;`. -/
def declAssignTokens : List Token :=
  [⟨T_INT, "int"⟩, ⟨T_ID, "x"⟩, ⟨T_SEMICOLON, ";"⟩,
   ⟨T_ID, "x"⟩, ⟨T_ASSIGN, "="⟩, ⟨T_NUM, "5"⟩, ⟨T_SEMICOLON, ";"⟩, ⟨T_EOF, ""⟩]

/-- The operator texts the binary productions of `parseExpression` and `parseTerm`
can emit. -/
def binaryOps : List String :=
  ["+", "-", ">", "<", "==", "!=", "&&", "||", "*", "/"]

/-- A relation between parser states that is closed under the elementary steps of the
expression parsers: moving the cursor over a token other than end-of-input, and
emitting a binary instruction into a new temporary. -/
structure ExprClosed (R : Parser → Parser → Prop) : Prop where
  refl : ∀ p, R p p
  trans : ∀ p q r, R p q → R q r → R p r
  advance : ∀ p t, p.tokens[p.pos]? = some t → t.type ≠ T_EOF → R p p.advance
  emit : ∀ p op lhs rhs, op ∈ binaryOps →
    R p { p with
      tacGenerator := p.tacGenerator.newTemp.2.addInstruction op lhs rhs p.tacGenerator.newTemp.1 }

/-- A relation closed under all elementary steps of the parser: those of expressions,
a successful `insert`, and the emission of an assignment to a declared name together
with `markInitialized`. -/
structure StepClosed (R : Parser → Parser → Prop) : Prop where
  expr : ExprClosed R
  declare : ∀ p name type st,
    p.symbolTable.insert name type p.currentScopeLevel = .ok st → R p { p with symbolTable := st }
  assign : ∀ p e name, p.symbolTable.lookup name = true →
    R p { p with
      tacGenerator := p.tacGenerator.addInstruction "=" e "" name
      symbolTable := p.symbolTable.markInitialized name }

/-- Relation `Extends p q`: the instruction sequence of `q` is that of `p` with further
instructions appended. -/
def Extends (p q : Parser) : Prop :=
  ∃ l, q.tacGenerator.instructions = p.tacGenerator.instructions ++ l

/-- The token list of `if (a) a = 1; else a = 2 + 3;`. -/
def ifElseTokens : List Token :=
  [⟨T_IF, "if"⟩, ⟨T_LPAREN, "("⟩, ⟨T_ID, "a"⟩, ⟨T_RPAREN, ")"⟩,
   ⟨T_ID, "a"⟩, ⟨T_ASSIGN, "="⟩, ⟨T_NUM, "1"⟩, ⟨T_SEMICOLON, ";"⟩,
   ⟨T_ELSE, "else"⟩,
   ⟨T_ID, "a"⟩, ⟨T_ASSIGN, "="⟩, ⟨T_NUM, "2"⟩, ⟨T_PLUS, "+"⟩, ⟨T_NUM, "3"⟩, ⟨T_SEMICOLON, ";"⟩,
   ⟨T_EOF, ""⟩]

/-- The index of the first `T_EOF` token; the length of the list when there is none. -/
def firstEof : List Token → Nat
  | [] => 0
  | t :: ts => if t.type = T_EOF then 0 else firstEof ts + 1

/-- The cursor is not past the first `T_EOF` token (and there is one). -/
def InBounds (p : Parser) : Prop :=
  p.pos ≤ firstEof p.tokens ∧ firstEof p.tokens < p.tokens.length

/-- Relation `Good x Q`: `x` is not the failure of a read outside the token list, and
when `x` is a success its value satisfies `Q`. -/
def Good {α : Type} (x : Except ParseError α) (Q : α → Prop) : Prop :=
  x ≠ .error .outOfBounds ∧ ∀ a, x = .ok a → Q a

/-! ## The run on the machine

The definitions above keep the counter of temporaries as a natural number and report a
failure as its diagnostic alone. The namespace `Machine` embeds the same code with what
these two conventions leave out: `tempCount` is the 32-bit `int` of the source, and a
failure carries the parser state at the moment the source prints its diagnostic and
calls `exit(1)`, that is what had been consumed, declared and emitted when the run
stopped. -/

/-- The value a 32-bit `int` holds for the arithmetic result `x`: two's complement, as
on the target; the language leaves the overflow of `tempCount++` undefined. -/
def wrapInt32 (x : Int) : Int :=
  (x + 2147483648) % 4294967296 - 2147483648

namespace Machine

structure TACGenerator where
  instructions : List TACInstruction
  /-- The member `int tempCount`. -/
  tempCount : Int
  deriving DecidableEq, Repr

namespace TACGenerator

def fresh : TACGenerator := ⟨[], 0⟩

/-- The name returned, `"t" + to_string(tempCount++)`, and the generator after the
increment. -/
def newTemp (g : TACGenerator) : String × TACGenerator :=
  ("t" ++ toString g.tempCount, { g with tempCount := wrapInt32 (g.tempCount + 1) })

def addInstruction (g : TACGenerator) (op arg1 arg2 result : String) : TACGenerator :=
  { g with instructions := g.instructions ++ [⟨op, arg1, arg2, result⟩] }

end TACGenerator

structure Parser where
  tokens : List Token
  pos : Nat
  /-- The value of `lexer.getLineNumber()`; tokenizing is over before parsing starts. -/
  line : Nat
  symbolTable : SymbolTable
  currentScopeLevel : Int
  tacGenerator : TACGenerator
  deriving DecidableEq, Repr

/-- A diagnostic together with the parser state at the exit. -/
abbrev Failure := ParseError × Parser

namespace Parser

/-- The constructor `Parser(tokens, lexer)`. -/
def init (tokens : List Token) (line : Nat) : Parser :=
  ⟨tokens, 0, line, SymbolTable.empty, 0, TACGenerator.fresh⟩

/-- The read `tokens[pos]`. -/
def cur (p : Parser) : Except Failure Token :=
  match p.tokens[p.pos]? with
  | some t => .ok t
  | none => .error (.outOfBounds, p)

/-- The statement `pos++`. -/
def advance (p : Parser) : Parser := { p with pos := p.pos + 1 }

end Parser

def expect (expected : TokenType) (p : Parser) : Except Failure Parser := do
  let t ← p.cur
  if t.type = expected then .ok p.advance
  else .error (.expectedToken expected p.line, p)

mutual

def parseExpression : Nat → Parser → Except Failure (String × Parser)
  | 0, p => .error (.outOfFuel, p)
  | fuel + 1, p => do
    let r ← parseTerm fuel p
    parseExpressionLoop fuel r.1 r.2

/-- The `while` loop of `parseExpression`, entered with the current `lhs`. -/
def parseExpressionLoop : Nat → String → Parser → Except Failure (String × Parser)
  | 0, _, p => .error (.outOfFuel, p)
  | fuel + 1, lhs, p => do
    let t ← p.cur
    if isExprOp t.type then
      let op := t.type
      let r ← parseTerm fuel p.advance
      let rhs := r.1
      let nt := r.2.tacGenerator.newTemp
      let temp := nt.1
      let opStr := exprOpStr op
      let g := nt.2.addInstruction opStr lhs rhs temp
      parseExpressionLoop fuel temp { r.2 with tacGenerator := g }
    else
      .ok (lhs, p)

def parseTerm : Nat → Parser → Except Failure (String × Parser)
  | 0, p => .error (.outOfFuel, p)
  | fuel + 1, p => do
    let r ← parseFactor fuel p
    parseTermLoop fuel r.1 r.2

/-- The `while` loop of `parseTerm`, entered with the current `lhs`. -/
def parseTermLoop : Nat → String → Parser → Except Failure (String × Parser)
  | 0, _, p => .error (.outOfFuel, p)
  | fuel + 1, lhs, p => do
    let t ← p.cur
    if isTermOp t.type then
      let op := t.type
      let r ← parseFactor fuel p.advance
      let rhs := r.1
      let nt := r.2.tacGenerator.newTemp
      let temp := nt.1
      let opStr := if op = T_MUL then "*" else "/"
      let g := nt.2.addInstruction opStr lhs rhs temp
      parseTermLoop fuel temp { r.2 with tacGenerator := g }
    else
      .ok (lhs, p)

def parseFactor : Nat → Parser → Except Failure (String × Parser)
  | 0, p => .error (.outOfFuel, p)
  | fuel + 1, p => do
    let t ← p.cur
    if t.type = T_NUM then
      .ok (t.value, p.advance)
    else if t.type = T_ID then
      .ok (t.value, p.advance)
    else if t.type = T_LPAREN then
      let r ← parseExpression fuel p.advance
      let p ← expect T_RPAREN r.2
      .ok (r.1, p)
    else
      .error (.expectedNumberOrIdentifier p.line, p)

end

/-- The call `symbolTable.insert(...)` inside the parser: on a redefinition the run
stops in the state `p`. -/
def insert (p : Parser) (name : String) (type : TokenType) : Except Failure SymbolTable :=
  match p.symbolTable.insert name type p.currentScopeLevel with
  | .ok st => .ok st
  | .error e => .error (e, p)

def parseDeclaration (p : Parser) : Except Failure Parser := do
  let t ← p.cur
  let varType := t.type
  let p := p.advance
  let t ← p.cur
  if t.type = T_ID then
    let varName := t.value
    let st ← insert p varName varType
    let p := { p with symbolTable := st }
    let p := p.advance
    expect T_SEMICOLON p
  else
    .error (.expectedIdentifier p.line, p)

def parseAssignment (fuel : Nat) (p : Parser) : Except Failure Parser := do
  let t ← p.cur
  let varName := t.value
  if !p.symbolTable.lookup varName then
    .error (.notDeclared varName p.line, p)
  else
    let p := p.advance
    let p ← expect T_ASSIGN p
    let t ← p.cur
    let r ← (if t.type = T_SENTENCE then do
        let p := p.advance
        let p ← expect T_SEMICOLON p
        pure ("", p)
      else do
        let r ← parseExpression fuel p
        let p ← expect T_SEMICOLON r.2
        pure (r.1, p) : Except Failure (String × Parser))
    let exprResult := r.1
    let p := r.2
    let p := { p with tacGenerator := p.tacGenerator.addInstruction "=" exprResult "" varName }
    .ok { p with symbolTable := p.symbolTable.markInitialized varName }

def parseReturnStatement (fuel : Nat) (p : Parser) : Except Failure Parser := do
  let p ← expect T_RETURN p
  let r ← parseExpression fuel p
  expect T_SEMICOLON r.2

mutual

def parseStatement : Nat → Parser → Except Failure Parser
  | 0, p => .error (.outOfFuel, p)
  | fuel + 1, p => do
    let t ← p.cur
    if isTypeKeyword t.type then parseDeclaration p
    else if t.type = T_ID then parseAssignment fuel p
    else if t.type = T_IF then parseIfStatement fuel p
    else if t.type = T_RETURN then parseReturnStatement fuel p
    else if t.type = T_LBRACE then parseBlock fuel p
    else if t.type = T_WHILE || t.type = T_FOR then parseLoop fuel p
    else .error (.unexpectedToken t.value p.line, p)

def parseBlock : Nat → Parser → Except Failure Parser
  | 0, p => .error (.outOfFuel, p)
  | fuel + 1, p => do
    let p ← expect T_LBRACE p
    let p ← parseBlockLoop fuel p
    expect T_RBRACE p

/-- The `while` loop of `parseBlock`. -/
def parseBlockLoop : Nat → Parser → Except Failure Parser
  | 0, p => .error (.outOfFuel, p)
  | fuel + 1, p => do
    let t ← p.cur
    if t.type ≠ T_RBRACE ∧ t.type ≠ T_EOF then
      let p ← parseStatement fuel p
      parseBlockLoop fuel p
    else
      .ok p

def parseIfStatement : Nat → Parser → Except Failure Parser
  | 0, p => .error (.outOfFuel, p)
  | fuel + 1, p => do
    let p ← expect T_IF p
    let p ← expect T_LPAREN p
    let r ← parseExpression fuel p
    let p ← expect T_RPAREN r.2
    let p ← parseStatement fuel p
    let t ← p.cur
    if t.type = T_ELSE then
      let p ← expect T_ELSE p
      parseStatement fuel p
    else
      .ok p

def parseLoop : Nat → Parser → Except Failure Parser
  | 0, p => .error (.outOfFuel, p)
  | fuel + 1, p => do
    let t ← p.cur
    if t.type = T_WHILE then
      let p ← expect T_WHILE p
      let p ← expect T_LPAREN p
      let r ← parseExpression fuel p
      let p ← expect T_RPAREN r.2
      parseStatement fuel p
    else if t.type = T_FOR then
      let p ← expect T_FOR p
      let p ← expect T_LPAREN p
      let p ← parseStatement fuel p
      let r ← parseExpression fuel p
      let p ← expect T_SEMICOLON r.2
      let p ← parseStatement fuel p
      let p ← expect T_RPAREN p
      parseStatement fuel p
    else
      .ok p

end

/-- The loop of `Parser::parseProgram`. -/
def parseProgram : Nat → Parser → Except Failure Parser
  | 0, p => .error (.outOfFuel, p)
  | fuel + 1, p => do
    let t ← p.cur
    if t.type ≠ T_EOF then
      let p ← parseStatement fuel p
      parseProgram fuel p
    else
      .ok p

/-- The front end of `main`; a failure of the parser comes with the state at the exit,
a failure of the tokenizer happens before there is a parser. -/
def compile (fuel : Nat) (src : String) : Except (CompileError × Option Parser) Parser :=
  match tokenizeWithLine src with
  | .error e => .error (.lexical e, none)
  | .ok (tokens, line) =>
    match parseProgram fuel (Parser.init tokens line) with
    | .error (e, q) => .error (.parsing e, some q)
    | .ok p => .ok p

end Machine

/-- Relation `Machine.Post x Q`: when `x` is a success, its value satisfies `Q`. -/
def Machine.Post {α : Type} (x : Except Machine.Failure α) (Q : α → Prop) : Prop :=
  ∀ a, x = .ok a → Q a

/-- A state in the middle of a run, with one declared name and two instructions, where
the cursor stands on `int` followed by `;`. -/
def midRun : Machine.Parser :=
  ⟨[⟨T_INT, "int"⟩, ⟨T_ID, "x"⟩, ⟨T_SEMICOLON, ";"⟩,
    ⟨T_ID, "x"⟩, ⟨T_ASSIGN, "="⟩, ⟨T_NUM, "1"⟩, ⟨T_PLUS, "+"⟩, ⟨T_NUM, "2"⟩, ⟨T_SEMICOLON, ";"⟩,
    ⟨T_INT, "int"⟩, ⟨T_SEMICOLON, ";"⟩, ⟨T_EOF, ""⟩], 9, 1,
    ⟨[("x", ⟨T_INT, 0, true⟩)]⟩, 0,
    ⟨[⟨"+", "1", "2", "t0"⟩, ⟨"=", "t0", "", "x"⟩], 1⟩⟩

/-! ## Fuel: a result other than `outOfFuel` does not depend on the fuel -/

theorem stable_refl {α : Type} (x : Except ParseError α) : Stable x x :=
  fun _ => rfl

theorem stable_bind {α β : Type} {x y : Except ParseError α}
    {f g : α → Except ParseError β} (hx : Stable x y) (hf : ∀ a, Stable (f a) (g a)) :
    Stable (x >>= f) (y >>= g) := by
  intro h
  cases x with
  | error e =>
    have he : (Except.error e : Except ParseError α) ≠ .error .outOfFuel := by
      intro heq
      apply h
      rw [heq]
      rfl
    rw [hx he]
    rfl
  | ok a =>
    rw [hx (by simp)]
    exact hf a h

theorem stable_ite {α : Type} {c : Prop} [Decidable c] {x y x' y' : Except ParseError α}
    (hx : Stable x x') (hy : Stable y y') :
    Stable (if c then x else y) (if c then x' else y') := by
  by_cases hc : c
  · simpa [hc] using hx
  · simpa [hc] using hy

theorem parseExpression_stable_all (fuel : Nat) :
    (∀ p, Stable (parseExpression fuel p) (parseExpression (fuel + 1) p)) ∧
    (∀ lhs p, Stable (parseExpressionLoop fuel lhs p) (parseExpressionLoop (fuel + 1) lhs p)) ∧
    (∀ p, Stable (parseTerm fuel p) (parseTerm (fuel + 1) p)) ∧
    (∀ lhs p, Stable (parseTermLoop fuel lhs p) (parseTermLoop (fuel + 1) lhs p)) ∧
    (∀ p, Stable (parseFactor fuel p) (parseFactor (fuel + 1) p)) := by
  induction fuel with
  | zero =>
    refine ⟨?_, ?_, ?_, ?_, ?_⟩ <;> intros <;> intro h <;> exact absurd rfl h
  | succ n ih =>
    obtain ⟨hE, hEL, hT, hTL, hF⟩ := ih
    refine ⟨?_, ?_, ?_, ?_, ?_⟩
    · intro p
      rw [parseExpression, parseExpression]
      exact stable_bind (hT p) (fun r => hEL r.1 r.2)
    · intro lhs p
      rw [parseExpressionLoop, parseExpressionLoop]
      refine stable_bind (stable_refl _) (fun t => stable_ite ?_ (stable_refl _))
      exact stable_bind (hT _) (fun r => hEL _ _)
    · intro p
      rw [parseTerm, parseTerm]
      exact stable_bind (hF p) (fun r => hTL r.1 r.2)
    · intro lhs p
      rw [parseTermLoop, parseTermLoop]
      refine stable_bind (stable_refl _) (fun t => stable_ite ?_ (stable_refl _))
      exact stable_bind (hF _) (fun r => hTL _ _)
    · intro p
      rw [parseFactor, parseFactor]
      refine stable_bind (stable_refl _) (fun t => stable_ite (stable_refl _)
        (stable_ite (stable_refl _) (stable_ite ?_ (stable_refl _))))
      exact stable_bind (hE _) (fun r => stable_refl _)

theorem parseExpression_stable (fuel : Nat) (p : Parser) :
    Stable (parseExpression fuel p) (parseExpression (fuel + 1) p) :=
  (parseExpression_stable_all fuel).1 p

theorem parseAssignment_stable (fuel : Nat) (p : Parser) :
    Stable (parseAssignment fuel p) (parseAssignment (fuel + 1) p) := by
  unfold parseAssignment
  refine stable_bind (stable_refl _) (fun t => stable_ite (stable_refl _) ?_)
  refine stable_bind (stable_refl _) (fun q => stable_bind (stable_refl _) (fun t => ?_))
  refine stable_bind (stable_ite (stable_refl _) ?_) (fun r => stable_refl _)
  exact stable_bind (parseExpression_stable fuel _) (fun r => stable_refl _)

theorem parseReturnStatement_stable (fuel : Nat) (p : Parser) :
    Stable (parseReturnStatement fuel p) (parseReturnStatement (fuel + 1) p) := by
  unfold parseReturnStatement
  exact stable_bind (stable_refl _)
    (fun q => stable_bind (parseExpression_stable fuel _) (fun r => stable_refl _))

theorem parseStatement_stable_all (fuel : Nat) :
    (∀ p, Stable (parseStatement fuel p) (parseStatement (fuel + 1) p)) ∧
    (∀ p, Stable (parseBlock fuel p) (parseBlock (fuel + 1) p)) ∧
    (∀ p, Stable (parseBlockLoop fuel p) (parseBlockLoop (fuel + 1) p)) ∧
    (∀ p, Stable (parseIfStatement fuel p) (parseIfStatement (fuel + 1) p)) ∧
    (∀ p, Stable (parseLoop fuel p) (parseLoop (fuel + 1) p)) := by
  induction fuel with
  | zero =>
    refine ⟨?_, ?_, ?_, ?_, ?_⟩ <;> intros <;> intro h <;> exact absurd rfl h
  | succ n ih =>
    obtain ⟨hS, hB, hBL, hI, hL⟩ := ih
    refine ⟨?_, ?_, ?_, ?_, ?_⟩
    · intro p
      rw [parseStatement, parseStatement]
      refine stable_bind (stable_refl _) (fun t => stable_ite (stable_refl _) ?_)
      refine stable_ite (parseAssignment_stable n p) (stable_ite (hI p) ?_)
      exact stable_ite (parseReturnStatement_stable n p) (stable_ite (hB p)
        (stable_ite (hL p) (stable_refl _)))
    · intro p
      rw [parseBlock, parseBlock]
      exact stable_bind (stable_refl _)
        (fun q => stable_bind (hBL q) (fun r => stable_refl _))
    · intro p
      rw [parseBlockLoop, parseBlockLoop]
      refine stable_bind (stable_refl _) (fun t => stable_ite ?_ (stable_refl _))
      exact stable_bind (hS p) (fun q => hBL q)
    · intro p
      rw [parseIfStatement, parseIfStatement]
      refine stable_bind (stable_refl _) (fun q => stable_bind (stable_refl _) (fun q => ?_))
      refine stable_bind (parseExpression_stable n q) (fun r => ?_)
      refine stable_bind (stable_refl _) (fun q => stable_bind (hS q) (fun q => ?_))
      refine stable_bind (stable_refl _) (fun t => stable_ite ?_ (stable_refl _))
      exact stable_bind (stable_refl _) (fun q => hS q)
    · intro p
      rw [parseLoop, parseLoop]
      refine stable_bind (stable_refl _) (fun t => stable_ite ?_ (stable_ite ?_ (stable_refl _)))
      · refine stable_bind (stable_refl _) (fun q => stable_bind (stable_refl _) (fun q => ?_))
        refine stable_bind (parseExpression_stable n q) (fun r => ?_)
        exact stable_bind (stable_refl _) (fun q => hS q)
      · refine stable_bind (stable_refl _) (fun q => stable_bind (stable_refl _) (fun q => ?_))
        refine stable_bind (hS q) (fun q => stable_bind (parseExpression_stable n q) (fun r => ?_))
        refine stable_bind (stable_refl _) (fun q => stable_bind (hS q) (fun q => ?_))
        exact stable_bind (stable_refl _) (fun q => hS q)

theorem parseStatement_stable (fuel : Nat) (p : Parser) :
    Stable (parseStatement fuel p) (parseStatement (fuel + 1) p) :=
  (parseStatement_stable_all fuel).1 p

theorem parseProgram_stable (fuel : Nat) :
    ∀ p, Stable (parseProgram fuel p) (parseProgram (fuel + 1) p) := by
  induction fuel with
  | zero => intro p h; exact absurd rfl h
  | succ n ih =>
    intro p
    rw [parseProgram, parseProgram]
    refine stable_bind (stable_refl _) (fun t => stable_ite ?_ (stable_refl _))
    exact stable_bind (parseStatement_stable n p) (fun q => ih q)

theorem parseProgram_fuel_add {fuel : Nat} {p : Parser}
    {r : Except ParseError Parser} (h : parseProgram fuel p = r)
    (hr : r ≠ .error .outOfFuel) (extra : Nat) : parseProgram (fuel + extra) p = r := by
  induction extra with
  | zero => exact h
  | succ k ih =>
    have := parseProgram_stable (fuel + k) p (by rw [ih]; exact hr)
    rw [← Nat.add_assoc, this, ih]

theorem compile_fuel_add {fuel : Nat} {src : String} {r : Except CompileError Parser}
    (h : compile fuel src = r) (hr : r ≠ .error (.parsing .outOfFuel)) (extra : Nat) :
    compile (fuel + extra) src = r := by
  unfold compile at h ⊢
  cases hl : tokenizeWithLine src with
  | error e => rw [hl] at h; exact h
  | ok tl =>
    obtain ⟨tokens, line⟩ := tl
    rw [hl] at h
    simp only at h ⊢
    cases hp : parseProgram fuel (Parser.init tokens line) with
    | error e =>
      rw [hp] at h
      have hne : (Except.error e : Except ParseError Parser) ≠ .error .outOfFuel := by
        intro heq
        apply hr
        rw [← h]
        cases heq
        rfl
      rw [parseProgram_fuel_add hp hne extra]
      exact h
    | ok q =>
      rw [hp] at h
      rw [parseProgram_fuel_add hp (by simp) extra]
      exact h

/-! ## End-to-end example -/

/-- C1: compiling `int x; x = 5; int y; y = x + 2;` succeeds (with any fuel from 9 on);
the token list is the expected one, the scope table then holds exactly `x` and `y`,
both `int` and initialized, and the instruction sequence is exactly
`x = 5`, `t0 = x + 2`, `y = t0`. -/
theorem compile_example (extra : Nat) :
    tokenize "int x; x = 5; int y; y = x + 2;" = .ok exampleTokens ∧
    ∃ p, compile (9 + extra) "int x; x = 5; int y; y = x + 2;" = .ok p ∧
      p.symbolTable.symbols = [("x", ⟨T_INT, 0, true⟩), ("y", ⟨T_INT, 0, true⟩)] ∧
      p.tacGenerator.instructions =
        [⟨"=", "5", "", "x"⟩, ⟨"+", "x", "2", "t0"⟩, ⟨"=", "t0", "", "y"⟩] := by
  refine ⟨by decide!, ⟨exampleTokens, 16, 1,
    ⟨[("x", ⟨T_INT, 0, true⟩), ("y", ⟨T_INT, 0, true⟩)]⟩, 0,
    ⟨[⟨"=", "5", "", "x"⟩, ⟨"+", "x", "2", "t0"⟩, ⟨"=", "t0", "", "y"⟩], 1⟩⟩, ?_, rfl, rfl⟩
  exact compile_fuel_add (by decide!) (by simp) extra

/-! ## Lowering -/

/-- C2: the listing for `[x = 5, t0 = x + 2, y = t0]` is exactly `mov eax, [x]`,
`add eax, [2]`, `mov [t0], eax`: it has the load and the add, but its last line stores
into `t0`, and no line stores into `y`. -/
theorem generateAssembly_example :
    generateAssembly [⟨"=", "5", "", "x"⟩, ⟨"+", "x", "2", "t0"⟩, ⟨"=", "t0", "", "y"⟩] =
      ["mov eax, [x]", "add eax, [2]", "mov [t0], eax"] := by
  decide!

/-- C3: the instructions `x = 5` and `y = t0` (operator `=`, empty second operand) are
split into four pieces, not three, and lower to no line at all. -/
theorem generateAssembly_assignment_empty :
    split (instructionString ⟨"=", "5", "", "x"⟩) ' ' = ["x", "=", "5", "="] ∧
    generateAssembly [⟨"=", "5", "", "x"⟩] = [] ∧
    generateAssembly [⟨"=", "t0", "", "y"⟩] = [] := by
  decide!

/-! ## Splitting the text of an instruction -/

theorem splitAux_piece (d : Char) (w rest : List Char) (hw : d ∉ w) :
    ∀ token, splitAux d (w ++ d :: rest) token = String.mk (token ++ w) :: splitAux d rest [] := by
  induction w with
  | nil => intro token; simp [splitAux]
  | cons c cs ih =>
    intro token
    have hc : c ≠ d := fun h => hw (by simp [h])
    have hcs : d ∉ cs := fun h => hw (by simp [h])
    simp [splitAux, hc, ih hcs]

theorem splitAux_last (d : Char) (w : List Char) (hw : d ∉ w) :
    ∀ token, splitAux d w token =
      if (token ++ w).isEmpty then [] else [String.mk (token ++ w)] := by
  induction w with
  | nil => intro token; simp [splitAux]
  | cons c cs ih =>
    intro token
    have hc : c ≠ d := fun h => hw (by simp [h])
    have hcs : d ∉ cs := fun h => hw (by simp [h])
    simp [splitAux, hc, ih hcs]

theorem instructionString_data (instr : TACInstruction) :
    (instructionString instr).data =
      instr.result.data ++ ' ' :: '=' :: ' ' ::
        (instr.arg1.data ++ ' ' :: (instr.op.data ++ ' ' :: instr.arg2.data)) := by
  simp [instructionString, String.data_append]

/-- An instruction whose four fields are free of spaces and whose second operand is
not empty is split back into `result`, `=`, `arg1`, `op`, `arg2`. -/
theorem split_instructionString (instr : TACInstruction)
    (hr : ' ' ∉ instr.result.data) (h1 : ' ' ∉ instr.arg1.data) (ho : ' ' ∉ instr.op.data)
    (h2 : ' ' ∉ instr.arg2.data) (hne : instr.arg2 ≠ "") :
    split (instructionString instr) ' ' =
      [instr.result, "=", instr.arg1, instr.op, instr.arg2] := by
  have hne' : instr.arg2.data ≠ [] := by
    intro h
    apply hne
    cases h2' : instr.arg2
    simp_all
  unfold split
  rw [instructionString_data, splitAux_piece _ _ _ hr, splitAux]
  simp only [show (('=' : Char) == ' ') = false by decide, Bool.false_eq_true, if_false]
  rw [splitAux]
  simp only [show ((' ' : Char) == ' ') = true by decide, if_true]
  rw [splitAux_piece _ _ _ h1, splitAux_piece _ _ _ ho, splitAux_last _ _ h2]
  simp [hne']

theorem generateAssembly_snoc (pre : List TACInstruction) (instr : TACInstruction) :
    generateAssembly (pre ++ [instr]) = lowerInstruction (generateAssembly pre) instr := by
  simp [generateAssembly, List.foldl_append]

/-- C4: for an instruction with operator `+`, `-`, `*` or `/` whose operands and
destination contain no space and whose second operand is not empty, the lowerer appends
exactly: the load of operand1; `add`/`sub`/`imul` on operand2, or for `/` the three
lines `mov edx, 0`, `mov ebx, [operand2]`, `idiv ebx`; the store into the destination.
That is three lines for `+ - *` and five for `/`, after whatever the earlier
instructions produced. -/
theorem generateAssembly_arithmetic (pre : List TACInstruction) (a b d : String)
    (hb : b ≠ "") (hsa : ' ' ∉ a.data) (hsb : ' ' ∉ b.data) (hsd : ' ' ∉ d.data) :
    generateAssembly (pre ++ [⟨"+", a, b, d⟩]) = generateAssembly pre ++
      ["mov eax, [" ++ a ++ "]", "add eax, [" ++ b ++ "]", "mov [" ++ d ++ "], eax"] ∧
    generateAssembly (pre ++ [⟨"-", a, b, d⟩]) = generateAssembly pre ++
      ["mov eax, [" ++ a ++ "]", "sub eax, [" ++ b ++ "]", "mov [" ++ d ++ "], eax"] ∧
    generateAssembly (pre ++ [⟨"*", a, b, d⟩]) = generateAssembly pre ++
      ["mov eax, [" ++ a ++ "]", "imul eax, [" ++ b ++ "]", "mov [" ++ d ++ "], eax"] ∧
    generateAssembly (pre ++ [⟨"/", a, b, d⟩]) = generateAssembly pre ++
      ["mov eax, [" ++ a ++ "]", "mov edx, 0", "mov ebx, [" ++ b ++ "]", "idiv ebx",
        "mov [" ++ d ++ "], eax"] := by
  refine ⟨?_, ?_, ?_, ?_⟩ <;>
  · rw [generateAssembly_snoc]
    unfold lowerInstruction
    rw [split_instructionString _ hsd hsa (by simp) hsb hb]
    simp

theorem generateAssembly_arithmetic_witness :
    generateAssembly ([⟨"=", "5", "", "x"⟩] ++ [⟨"/", "x", "2", "t0"⟩]) =
      generateAssembly [⟨"=", "5", "", "x"⟩] ++
        ["mov eax, [" ++ "x" ++ "]", "mov edx, 0", "mov ebx, [" ++ "2" ++ "]", "idiv ebx",
          "mov [" ++ "t0" ++ "], eax"] :=
  (generateAssembly_arithmetic [⟨"=", "5", "", "x"⟩] "x" "2" "t0"
    (by decide) (by decide) (by decide) (by decide)).2.2.2

/-! ## Scope checking -/

theorem holdsOnOk_elim {ε α : Type} {x : Except ε α} {Q : α → Bool}
    (h : holdsOnOk x Q = true) : ∃ a, x = .ok a ∧ Q a = true := by
  cases x with
  | error e => simp [holdsOnOk] at h
  | ok a => exact ⟨a, rfl, by simpa [holdsOnOk] using h⟩

/-- C5: `int a; a = b;` and `int a; a = 1 + b;` compile successfully although `b` is
never declared: the scope table ends without `b`, and `b` is an operand of the emitted
instructions. -/
theorem compile_undeclared_operand (extra : Nat) :
    (∃ p, compile (7 + extra) "int a; a = b;" = .ok p ∧
      p.symbolTable.lookup "b" = false ∧
      p.tacGenerator.instructions = [⟨"=", "b", "", "a"⟩]) ∧
    (∃ p, compile (7 + extra) "int a; a = 1 + b;" = .ok p ∧
      p.symbolTable.lookup "b" = false ∧
      p.tacGenerator.instructions = [⟨"+", "1", "b", "t0"⟩, ⟨"=", "t0", "", "a"⟩]) := by
  constructor
  · obtain ⟨p, hp, hq⟩ := holdsOnOk_elim (x := compile 7 "int a; a = b;")
      (Q := fun p => decide (p.symbolTable.lookup "b" = false ∧
        p.tacGenerator.instructions = [⟨"=", "b", "", "a"⟩])) (by decide!)
    exact ⟨p, compile_fuel_add hp (by simp) extra, of_decide_eq_true hq⟩
  · obtain ⟨p, hp, hq⟩ := holdsOnOk_elim (x := compile 7 "int a; a = 1 + b;")
      (Q := fun p => decide (p.symbolTable.lookup "b" = false ∧
        p.tacGenerator.instructions = [⟨"+", "1", "b", "t0"⟩, ⟨"=", "t0", "", "a"⟩]))
      (by decide!)
    exact ⟨p, compile_fuel_add hp (by simp) extra, of_decide_eq_true hq⟩

theorem cur_of_get {p : Parser} {t : Token} (h : p.tokens[p.pos]? = some t) :
    p.cur = .ok t := by
  simp [Parser.cur, h]

/-- C6: when the token under the cursor carries a name that is absent from the scope
table, `parseAssignment` fails with the undeclared-variable error for that name before
it reads any further token, and so does `parseStatement` when that token is an
identifier; compiling `b = 1;` fails with that error. -/
theorem parseAssignment_undeclared :
    (∀ (fuel : Nat) (p : Parser) (t : Token),
      p.tokens[p.pos]? = some t → p.symbolTable.lookup t.value = false →
        parseAssignment fuel p = .error (.notDeclared t.value p.line) ∧
        (t.type = T_ID →
          parseStatement (fuel + 1) p = .error (.notDeclared t.value p.line))) ∧
    (∀ extra : Nat, compile (2 + extra) "b = 1;" = .error (.parsing (.notDeclared "b" 1))) := by
  constructor
  · intro fuel p t ht hl
    have hA : parseAssignment fuel p = .error (.notDeclared t.value p.line) := by
      simp [parseAssignment, cur_of_get ht, hl, bind, Except.bind]
    refine ⟨hA, fun hid => ?_⟩
    rw [parseStatement]
    simp [cur_of_get ht, hid, isTypeKeyword, hA, bind, Except.bind]
  · intro extra
    exact compile_fuel_add (by decide!) (by simp) extra

theorem parseAssignment_undeclared_witness :
    parseAssignment 0 (Parser.init [⟨T_ID, "b"⟩, ⟨T_ASSIGN, "="⟩, ⟨T_NUM, "1"⟩,
        ⟨T_SEMICOLON, ";"⟩, ⟨T_EOF, ""⟩] 1) = .error (.notDeclared "b" 1) ∧
    parseStatement 1 (Parser.init [⟨T_ID, "b"⟩, ⟨T_ASSIGN, "="⟩, ⟨T_NUM, "1"⟩,
        ⟨T_SEMICOLON, ";"⟩, ⟨T_EOF, ""⟩] 1) = .error (.notDeclared "b" 1) :=
  let h := parseAssignment_undeclared.1 0 (Parser.init [⟨T_ID, "b"⟩, ⟨T_ASSIGN, "="⟩,
    ⟨T_NUM, "1"⟩, ⟨T_SEMICOLON, ";"⟩, ⟨T_EOF, ""⟩] 1) ⟨T_ID, "b"⟩ (by decide) (by decide)
  ⟨h.1, h.2 rfl⟩

theorem insert_of_lookup {t : SymbolTable} {name : String} (type : TokenType) (lvl : Int)
    (h : t.lookup name = true) : t.insert name type lvl = .error (.redefinition name) := by
  unfold SymbolTable.insert
  unfold SymbolTable.lookup at h
  have : t.find? name ≠ none := by
    intro hn
    rw [hn] at h
    simp at h
  simp [this]

/-- C7: `SymbolTable::insert` on a name that is present fails with the redeclaration
error (and yields no table). Hence a declaration `T name;` met while `name` is in the
scope table fails with that error, whatever the two types are and wherever the parser
stands, both in `parseDeclaration` and through `parseStatement`; compiling
`int a; { int a; }` fails with the redeclaration error for `a`. -/
theorem parseDeclaration_redeclared :
    (∀ (t : SymbolTable) (name : String) (type : TokenType) (lvl : Int),
      t.lookup name = true → t.insert name type lvl = .error (.redefinition name)) ∧
    (∀ (p : Parser) (ty id : Token),
      p.tokens[p.pos]? = some ty → p.tokens[p.pos + 1]? = some id →
      id.type = T_ID → p.symbolTable.lookup id.value = true →
        parseDeclaration p = .error (.redefinition id.value) ∧
        (isTypeKeyword ty.type = true →
          ∀ fuel, parseStatement (fuel + 1) p = .error (.redefinition id.value))) ∧
    (∀ extra : Nat,
      compile (6 + extra) "int a; \x7b int a; \x7d" = .error (.parsing (.redefinition "a"))) := by
  refine ⟨fun t name type lvl h => insert_of_lookup type lvl h, ?_, ?_⟩
  · intro p ty id hty hid hidt hl
    have hD : parseDeclaration p = .error (.redefinition id.value) := by
      simp [parseDeclaration, cur_of_get hty, Parser.cur, Parser.advance, hid, hty, hidt,
        insert_of_lookup _ _ hl, bind, Except.bind]
    refine ⟨hD, fun hk fuel => ?_⟩
    rw [parseStatement]
    simp [cur_of_get hty, hk, hD, bind, Except.bind]
  · intro extra
    exact compile_fuel_add (by decide!) (by simp) extra

theorem parseDeclaration_redeclared_witness :
    parseDeclaration ⟨[⟨T_FLOAT, "float"⟩, ⟨T_ID, "a"⟩, ⟨T_SEMICOLON, ";"⟩, ⟨T_EOF, ""⟩], 0, 1,
        ⟨[("a", ⟨T_INT, 0, false⟩)]⟩, 0, TACGenerator.fresh⟩ = .error (.redefinition "a") :=
  (parseDeclaration_redeclared.2.1
    ⟨[⟨T_FLOAT, "float"⟩, ⟨T_ID, "a"⟩, ⟨T_SEMICOLON, ";"⟩, ⟨T_EOF, ""⟩], 0, 1,
      ⟨[("a", ⟨T_INT, 0, false⟩)]⟩, 0, TACGenerator.fresh⟩
    ⟨T_FLOAT, "float"⟩ ⟨T_ID, "a"⟩ (by decide) (by decide) rfl (by decide)).1

/-! ## Expressions over three operands -/

theorem post_bind {α β : Type} {x : Except ParseError α} {f : α → Except ParseError β}
    {Q : α → Prop} {R : β → Prop} (hx : Post x Q) (hf : ∀ a, Q a → Post (f a) R) :
    Post (x >>= f) R := by
  intro b hb
  cases x with
  | error e => cases hb
  | ok a => exact hf a (hx a rfl) b hb

theorem post_ite {α : Type} {c : Prop} [Decidable c] {x y : Except ParseError α}
    {Q : α → Prop} (hx : Post x Q) (hy : Post y Q) : Post (if c then x else y) Q := by
  by_cases hc : c
  · simpa [hc] using hx
  · simpa [hc] using hy

theorem post_ok {α : Type} {a : α} {Q : α → Prop} (h : Q a) :
    Post (Except.ok a : Except ParseError α) Q := by
  intro b hb
  cases hb
  exact h

theorem post_error {α : Type} {e : ParseError} {Q : α → Prop} :
    Post (Except.error e : Except ParseError α) Q := by
  intro b hb
  cases hb

theorem post_mono {α : Type} {x : Except ParseError α} {Q R : α → Prop}
    (hx : Post x Q) (h : ∀ a, Q a → R a) : Post x R :=
  fun a ha => h a (hx a ha)

theorem post_trivial {α : Type} (x : Except ParseError α) : Post x (fun _ => True) :=
  fun _ _ => True.intro

theorem frame_refl (p : Parser) : Frame p p := ⟨rfl, rfl, rfl, rfl⟩

theorem frame_trans {p q r : Parser} (h1 : Frame p q) (h2 : Frame q r) : Frame p r :=
  ⟨h2.1.trans h1.1, h2.2.1.trans h1.2.1, h2.2.2.1.trans h1.2.2.1, h2.2.2.2.trans h1.2.2.2⟩

theorem frame_advance (p : Parser) : Frame p p.advance := ⟨rfl, rfl, rfl, rfl⟩

theorem frame_emit (p : Parser) (g : TACGenerator) :
    Frame p { p with tacGenerator := g } := ⟨rfl, rfl, rfl, rfl⟩

theorem expect_frame (expected : TokenType) (p : Parser) :
    Post (expect expected p) (fun q => Frame p q) := by
  unfold expect
  exact post_bind (post_trivial _) (fun t _ => post_ite (post_ok (frame_advance p)) post_error)

theorem parseExpression_frame_all (fuel : Nat) :
    (∀ p, Post (parseExpression fuel p) (fun r => Frame p r.2)) ∧
    (∀ lhs p, Post (parseExpressionLoop fuel lhs p) (fun r => Frame p r.2)) ∧
    (∀ p, Post (parseTerm fuel p) (fun r => Frame p r.2)) ∧
    (∀ lhs p, Post (parseTermLoop fuel lhs p) (fun r => Frame p r.2)) ∧
    (∀ p, Post (parseFactor fuel p) (fun r => Frame p r.2)) := by
  induction fuel with
  | zero =>
    refine ⟨?_, ?_, ?_, ?_, ?_⟩ <;> intros <;> exact post_error
  | succ n ih =>
    obtain ⟨hE, hEL, hT, hTL, hF⟩ := ih
    refine ⟨?_, ?_, ?_, ?_, ?_⟩
    · intro p
      rw [parseExpression]
      exact post_bind (hT p) (fun r hr => post_mono (hEL r.1 r.2) (fun _ h => frame_trans hr h))
    · intro lhs p
      rw [parseExpressionLoop]
      refine post_bind (post_trivial _) (fun t _ => post_ite ?_ (post_ok (frame_refl p)))
      refine post_bind (hT _) (fun r hr => post_mono (hEL _ _) (fun _ h => ?_))
      exact frame_trans (frame_trans (frame_advance p) hr) (frame_trans (frame_emit r.2 _) h)
    · intro p
      rw [parseTerm]
      exact post_bind (hF p) (fun r hr => post_mono (hTL r.1 r.2) (fun _ h => frame_trans hr h))
    · intro lhs p
      rw [parseTermLoop]
      refine post_bind (post_trivial _) (fun t _ => post_ite ?_ (post_ok (frame_refl p)))
      refine post_bind (hF _) (fun r hr => post_mono (hTL _ _) (fun _ h => ?_))
      exact frame_trans (frame_trans (frame_advance p) hr) (frame_trans (frame_emit r.2 _) h)
    · intro p
      rw [parseFactor]
      refine post_bind (post_trivial _) (fun t _ => post_ite (post_ok (frame_advance p))
        (post_ite (post_ok (frame_advance p)) (post_ite ?_ post_error)))
      refine post_bind (hE _) (fun r hr => post_bind (expect_frame _ _) (fun q hq => ?_))
      exact post_ok (frame_trans (frame_trans (frame_advance p) hr) hq)

/-- Parsing an expression changes only the cursor and the emitter. -/
theorem parseExpression_frame {fuel : Nat} {p q : Parser} {r : String}
    (h : parseExpression fuel p = .ok (r, q)) : Frame p q :=
  (parseExpression_frame_all fuel).1 p (r, q) h

/-- An expression can only start with a number, an identifier or `(`. -/
theorem parseExpression_first {fuel : Nat} {p : Parser} {r : String × Parser}
    (h : parseExpression fuel p = .ok r) :
    ∃ t, p.tokens[p.pos]? = some t ∧ t.type ≠ T_SENTENCE := by
  match fuel with
  | 0 => cases h
  | 1 => rw [parseExpression, parseTerm] at h; cases h
  | 2 => rw [parseExpression, parseTerm, parseFactor] at h; cases h
  | n + 3 =>
    rw [parseExpression, parseTerm, parseFactor] at h
    cases ht : p.tokens[p.pos]? with
    | none => simp [Parser.cur, ht, bind, Except.bind] at h
    | some t =>
      refine ⟨t, rfl, fun hs => ?_⟩
      simp [Parser.cur, ht, hs, bind, Except.bind] at h

/-! ## Declaration followed by assignment -/

theorem find?_none_of_lookup {t : SymbolTable} {name : String} (h : t.lookup name = false) :
    t.find? name = none := by
  unfold SymbolTable.lookup at h
  cases hf : t.find? name with
  | none => rfl
  | some s => rw [hf] at h; simp at h

theorem insert_fresh {t : SymbolTable} {name : String} (type : TokenType) (lvl : Int)
    (h : t.lookup name = false) :
    t.insert name type lvl = .ok ⟨t.symbols ++ [(name, ⟨type, lvl, false⟩)]⟩ := by
  simp [SymbolTable.insert, find?_none_of_lookup h]

theorem find?_insert_fresh {t : SymbolTable} {name : String} (s : Symbol)
    (h : t.lookup name = false) :
    SymbolTable.find? ⟨t.symbols ++ [(name, s)]⟩ name = some s := by
  have hn := find?_none_of_lookup h
  unfold SymbolTable.find? at hn ⊢
  have hn' : List.find? (fun e => e.1 == name) t.symbols = none := by
    cases hf : List.find? (fun e => e.1 == name) t.symbols with
    | none => rfl
    | some e => rw [hf] at hn; simp at hn
  simp [List.find?_append, hn']

theorem find?_map_initialized (name : String) (s : Symbol) :
    ∀ l : List (String × Symbol),
      (List.find? (fun e => e.1 == name) l).map Prod.snd = some s →
      (List.find? (fun e => e.1 == name)
        (l.map (fun e => if e.1 == name then (e.1, { e.2 with initialized := true }) else e))).map
          Prod.snd = some { s with initialized := true } := by
  intro l
  induction l with
  | nil => intro h; simp at h
  | cons e es ih =>
    intro h
    by_cases he : (e.1 == name) = true
    · rw [List.find?_cons, he] at h
      rw [List.map_cons, if_pos he, List.find?_cons, he]
      simp only [Option.map_some', Option.some.injEq] at h ⊢
      rw [h]
    · have he' : (e.1 == name) = false := by simpa using he
      rw [List.find?_cons, he'] at h
      rw [List.map_cons, if_neg he, List.find?_cons, he']
      exact ih h

theorem find?_markInitialized {t : SymbolTable} {name : String} {s : Symbol}
    (h : t.find? name = some s) :
    (t.markInitialized name).find? name = some { s with initialized := true } := by
  have hl : t.lookup name = true := by simp [SymbolTable.lookup, h]
  unfold SymbolTable.markInitialized
  rw [if_pos hl]
  exact find?_map_initialized name s t.symbols h

/-- C10: let the tokens at the cursor be `T x ;` followed by `x =`, with `T` a type
keyword and `x` absent from the scope table. Parsing the declaration succeeds, maps `x`
to an entry of type `T` with `initialized = false`, and leaves the emitter as it was.
Then, for every expression after `x =` that parses successfully with result `r` and is
followed by `;`, parsing the assignment succeeds, the entry of `x` has
`initialized = true` (type unchanged), and the instruction sequence is the one the
expression left, extended by `x = r` (operator `=`, empty second operand) as the last
instruction. -/
theorem declaration_then_assignment (p : Parser) (ty id semi id2 asg : Token)
    (h0 : p.tokens[p.pos]? = some ty) (hty : isTypeKeyword ty.type = true)
    (h1 : p.tokens[p.pos + 1]? = some id) (hid : id.type = T_ID)
    (h2 : p.tokens[p.pos + 2]? = some semi) (hsemi : semi.type = T_SEMICOLON)
    (hfresh : p.symbolTable.lookup id.value = false)
    (h3 : p.tokens[p.pos + 3]? = some id2) (hid2 : id2 = ⟨T_ID, id.value⟩)
    (h4 : p.tokens[p.pos + 4]? = some asg) (hasg : asg.type = T_ASSIGN) :
    ∃ p1, parseDeclaration p = .ok p1 ∧ (∀ f, parseStatement (f + 1) p = .ok p1) ∧
      p1.tokens = p.tokens ∧ p1.pos = p.pos + 3 ∧
      p1.symbolTable.find? id.value = some ⟨ty.type, p.currentScopeLevel, false⟩ ∧
      p1.tacGenerator = p.tacGenerator ∧
      ∀ (fuel : Nat) (r : String) (q : Parser) (semi2 : Token),
        parseExpression fuel { p1 with pos := p.pos + 5 } = .ok (r, q) →
        q.tokens[q.pos]? = some semi2 → semi2.type = T_SEMICOLON →
        ∃ p2, parseAssignment fuel p1 = .ok p2 ∧ parseStatement (fuel + 1) p1 = .ok p2 ∧
          p2.symbolTable.find? id.value = some ⟨ty.type, p.currentScopeLevel, true⟩ ∧
          p2.tacGenerator.instructions =
            q.tacGenerator.instructions ++ [⟨"=", r, "", id.value⟩] := by
  have hD : parseDeclaration p = .ok { p with
      pos := p.pos + 3
      symbolTable := ⟨p.symbolTable.symbols ++
        [(id.value, ⟨ty.type, p.currentScopeLevel, false⟩)]⟩ } := by
    simp [parseDeclaration, expect, Parser.cur, Parser.advance, h0, h1, h2, hid, hsemi,
      insert_fresh _ _ hfresh, bind, Except.bind]
  have hfind := find?_insert_fresh (t := p.symbolTable)
    ⟨ty.type, p.currentScopeLevel, false⟩ hfresh
  refine ⟨_, hD, ?_, rfl, rfl, hfind, rfl, ?_⟩
  · intro f
    rw [parseStatement]
    simp [cur_of_get h0, hty, hD, bind, Except.bind]
  · intro fuel r q semi2 he hq hs
    obtain ⟨t5, ht5, hns⟩ := parseExpression_first he
    obtain ⟨hqt, hql, hqs, hqc⟩ := parseExpression_frame he
    have hlook : SymbolTable.lookup ⟨p.symbolTable.symbols ++
        [(id.value, ⟨ty.type, p.currentScopeLevel, false⟩)]⟩ id.value = true := by
      simp [SymbolTable.lookup, hfind]
    have ht5' : p.tokens[p.pos + 5]? = some t5 := ht5
    have hA : parseAssignment fuel { p with
        pos := p.pos + 3
        symbolTable := ⟨p.symbolTable.symbols ++
          [(id.value, ⟨ty.type, p.currentScopeLevel, false⟩)]⟩ } =
        .ok { q with
          pos := q.pos + 1
          tacGenerator := q.tacGenerator.addInstruction "=" r "" id.value
          symbolTable := q.symbolTable.markInitialized id.value } := by
      subst hid2
      simp [parseAssignment, expect, Parser.cur, Parser.advance, h3, h4, hasg, hlook, ht5',
        hns, he, hq, hs, bind, Except.bind, pure, Except.pure]
    refine ⟨_, hA, ?_, ?_, rfl⟩
    · rw [parseStatement]
      subst hid2
      simp [Parser.cur, h3, isTypeKeyword, hA, bind, Except.bind]
    · simp only
      rw [hqs]
      exact find?_markInitialized hfind

theorem declaration_then_assignment_witness :
    ∃ p1 p2, parseDeclaration (Parser.init declAssignTokens 1) = .ok p1 ∧
      p1.symbolTable.find? "x" = some ⟨T_INT, 0, false⟩ ∧
      p1.tacGenerator = TACGenerator.fresh ∧
      parseAssignment 3 p1 = .ok p2 ∧
      p2.symbolTable.find? "x" = some ⟨T_INT, 0, true⟩ ∧
      p2.tacGenerator.instructions = [⟨"=", "5", "", "x"⟩] := by
  obtain ⟨p1, hD, _, _, _, hf, hg, hA⟩ :=
    declaration_then_assignment (Parser.init declAssignTokens 1)
      ⟨T_INT, "int"⟩ ⟨T_ID, "x"⟩ ⟨T_SEMICOLON, ";"⟩ ⟨T_ID, "x"⟩ ⟨T_ASSIGN, "="⟩
      rfl rfl rfl rfl rfl rfl (by decide) rfl rfl rfl rfl
  have hp1 : p1 = ⟨declAssignTokens, 3, 1, ⟨[("x", ⟨T_INT, 0, false⟩)]⟩, 0,
      TACGenerator.fresh⟩ := by
    have hD' : parseDeclaration (Parser.init declAssignTokens 1) =
        .ok ⟨declAssignTokens, 3, 1, ⟨[("x", ⟨T_INT, 0, false⟩)]⟩, 0,
          TACGenerator.fresh⟩ := by decide!
    rw [hD'] at hD
    cases hD
    rfl
  subst hp1
  obtain ⟨p2, hA2, _, hf2, hi2⟩ := hA 3 "5"
    ⟨declAssignTokens, 6, 1, ⟨[("x", ⟨T_INT, 0, false⟩)]⟩, 0, TACGenerator.fresh⟩
    ⟨T_SEMICOLON, ";"⟩ (by decide!) rfl rfl
  exact ⟨_, p2, hD, hf, hg, hA2, hf2, hi2⟩

/-! ## String literals on the right of an assignment -/

/-- C11: for every parser state whose cursor stands on `x = <string literal> ;` with `x`
in the scope table, `parseAssignment` succeeds and does append an instruction: the `=`
instruction with destination `x` and an empty first operand. Compiling
`string s; s = "hi";` leaves the sequence `[s = ""]`. -/
theorem compile_string_assignment :
    (∀ (fuel : Nat) (p : Parser) (x asg str semi : Token),
      p.tokens[p.pos]? = some x → p.symbolTable.lookup x.value = true →
      p.tokens[p.pos + 1]? = some asg → asg.type = T_ASSIGN →
      p.tokens[p.pos + 2]? = some str → str.type = T_SENTENCE →
      p.tokens[p.pos + 3]? = some semi → semi.type = T_SEMICOLON →
        parseAssignment fuel p = .ok { p with
          pos := p.pos + 4
          tacGenerator := ⟨p.tacGenerator.instructions ++ [⟨"=", "", "", x.value⟩],
            p.tacGenerator.tempCount⟩
          symbolTable := p.symbolTable.markInitialized x.value }) ∧
    (∀ extra : Nat, ∃ p, compile (3 + extra) "string s; s = \"hi\";" = .ok p ∧
      p.tacGenerator.instructions = [⟨"=", "", "", "s"⟩] ∧
      p.symbolTable.symbols = [("s", ⟨T_STRING, 0, true⟩)]) := by
  constructor
  · intro fuel p x asg str semi hx hl hasg hasgt hstr hstrt hsemi hsemit
    simp [parseAssignment, expect, Parser.cur, Parser.advance, hx, hl, hasg, hasgt, hstr,
      hstrt, hsemi, hsemit, TACGenerator.addInstruction, bind, Except.bind, pure, Except.pure]
  · intro extra
    obtain ⟨p, hp, hq⟩ := holdsOnOk_elim (x := compile 3 "string s; s = \"hi\";")
      (Q := fun p => decide (p.tacGenerator.instructions = [⟨"=", "", "", "s"⟩] ∧
        p.symbolTable.symbols = [("s", ⟨T_STRING, 0, true⟩)])) (by decide!)
    exact ⟨p, compile_fuel_add hp (by simp) extra, of_decide_eq_true hq⟩

/-! ## Two-character operators -/

/-- C19: when the main loop of the tokenizer stands on `&` and the next character is
not `&` (also when there is none), on `|` not followed by `|`, or on `!` not followed by
`=`, it fails with the `unexpected character` error of the current line, whatever was
tokenized before; followed by their pair, `&&`, `||` and `!=` are consumed as the single
tokens `T_AND`, `T_OR`, `T_NEQ`. -/
theorem tokenizeLoop_paired_operator :
    (∀ (fuel : Nat) (src : List Char) (pos line : Nat) (tokens : List Token),
      (src[pos]? = some '&' → peek src pos ≠ '&' →
        tokenizeLoop (fuel + 1) src pos line tokens = .error (.unexpectedChar '&' line)) ∧
      (src[pos]? = some '|' → peek src pos ≠ '|' →
        tokenizeLoop (fuel + 1) src pos line tokens = .error (.unexpectedChar '|' line)) ∧
      (src[pos]? = some '!' → peek src pos ≠ '=' →
        tokenizeLoop (fuel + 1) src pos line tokens = .error (.unexpectedChar '!' line)) ∧
      (src[pos]? = some '&' → peek src pos = '&' →
        tokenizeLoop (fuel + 1) src pos line tokens =
          tokenizeLoop fuel src (pos + 2) line (tokens ++ [⟨T_AND, "&&"⟩])) ∧
      (src[pos]? = some '|' → peek src pos = '|' →
        tokenizeLoop (fuel + 1) src pos line tokens =
          tokenizeLoop fuel src (pos + 2) line (tokens ++ [⟨T_OR, "||"⟩])) ∧
      (src[pos]? = some '!' → peek src pos = '=' →
        tokenizeLoop (fuel + 1) src pos line tokens =
          tokenizeLoop fuel src (pos + 2) line (tokens ++ [⟨T_NEQ, "!="⟩]))) ∧
    (tokenize "&&" = .ok [⟨T_AND, "&&"⟩, ⟨T_EOF, ""⟩] ∧
      tokenize "||" = .ok [⟨T_OR, "||"⟩, ⟨T_EOF, ""⟩] ∧
      tokenize "!=" = .ok [⟨T_NEQ, "!="⟩, ⟨T_EOF, ""⟩] ∧
      tokenize "a & b" = .error (.unexpectedChar '&' 1) ∧
      tokenize "a |" = .error (.unexpectedChar '|' 1) ∧
      tokenize "x;\n!" = .error (.unexpectedChar '!' 2)) := by
  constructor
  · intro fuel src pos line tokens
    refine ⟨?_, ?_, ?_, ?_, ?_, ?_⟩ <;> intro h hp <;> rw [tokenizeLoop] <;>
      simp [h, hp, isspace, isdigit, isalpha, punctToken]
  · decide!

theorem tokenizeLoop_paired_operator_witness :
    tokenizeLoop (0 + 1) ['a', '&'] 1 1 [⟨T_ID, "a"⟩] = .error (.unexpectedChar '&' 1) ∧
    tokenizeLoop (1 + 1) ['!', '='] 0 1 [] = tokenizeLoop 1 ['!', '='] (0 + 2) 1
      ([] ++ [⟨T_NEQ, "!="⟩]) :=
  ⟨(tokenizeLoop_paired_operator.1 0 ['a', '&'] 1 1 [⟨T_ID, "a"⟩]).1 rfl (by decide),
   (tokenizeLoop_paired_operator.1 1 ['!', '='] 0 1 []).2.2.2.2.2 rfl (by decide)⟩

/-! ## The frame of `markInitialized` -/

theorem find?_map_other (name other : String) (hne : other ≠ name) :
    ∀ l : List (String × Symbol),
      (List.find? (fun e => e.1 == other)
        (l.map (fun e => if e.1 == name then (e.1, { e.2 with initialized := true }) else e))).map
          Prod.snd = (List.find? (fun e => e.1 == other) l).map Prod.snd := by
  intro l
  induction l with
  | nil => rfl
  | cons e es ih =>
    rw [List.map_cons]
    by_cases he : (e.1 == name) = true
    · have hen : e.1 = name := by simpa using he
      have heo : (e.1 == other) = false := by
        simp only [beq_eq_false_iff_ne, ne_eq]
        intro h
        exact hne (h.symm.trans hen)
      rw [if_pos he, List.find?_cons, List.find?_cons]
      simp only [heo]
      exact ih
    · rw [if_neg he, List.find?_cons, List.find?_cons]
      cases heo : (e.1 == other) with
      | true => rfl
      | false => exact ih

theorem map_fst_map_initialized (name : String) (l : List (String × Symbol)) :
    (l.map (fun e => if e.1 == name then (e.1, { e.2 with initialized := true }) else e)).map
      Prod.fst = l.map Prod.fst := by
  induction l with
  | nil => rfl
  | cons e es ih =>
    simp only [List.map_cons, ih]
    by_cases he : (e.1 == name) = true
    · rw [if_pos he]
    · rw [if_neg he]

theorem markInitialized_of_absent {t : SymbolTable} {name : String}
    (h : t.lookup name = false) : t.markInitialized name = t := by
  simp [SymbolTable.markInitialized, h]

theorem find?_markInitialized_other {t : SymbolTable} {name other : String}
    (h : t.lookup name = true) (hne : other ≠ name) :
    (t.markInitialized name).find? other = t.find? other := by
  unfold SymbolTable.markInitialized
  rw [if_pos h]
  exact find?_map_other name other hne t.symbols

/-- C20: `markInitialized` is a total function on tables. When `name` is absent the table
is returned as it is. When `name` is present, its entry keeps its type and scope level
and has `initialized = true`, the entry of every other name is the same as before, and
the table has the same names in the same order (no entry is created or removed). -/
theorem markInitialized_frame (t : SymbolTable) (name : String) :
    (t.lookup name = false → t.markInitialized name = t) ∧
    (t.lookup name = true →
      (∀ s, t.find? name = some s →
        (t.markInitialized name).find? name = some ⟨s.type, s.scopeLevel, true⟩) ∧
      (∀ other, other ≠ name → (t.markInitialized name).find? other = t.find? other) ∧
      (t.markInitialized name).symbols.map Prod.fst = t.symbols.map Prod.fst) := by
  constructor
  · exact markInitialized_of_absent
  · intro h
    refine ⟨fun s hs => find?_markInitialized hs,
      fun other hne => find?_markInitialized_other h hne, ?_⟩
    · unfold SymbolTable.markInitialized
      rw [if_pos h]
      exact map_fst_map_initialized name t.symbols

theorem markInitialized_frame_witness :
    SymbolTable.markInitialized ⟨[("x", ⟨T_INT, 0, false⟩)]⟩ "y" =
      ⟨[("x", ⟨T_INT, 0, false⟩)]⟩ ∧
    (SymbolTable.markInitialized ⟨[("x", ⟨T_INT, 0, false⟩), ("y", ⟨T_BOOL, 0, false⟩)]⟩
      "x").find? "x" = some ⟨T_INT, 0, true⟩ ∧
    (SymbolTable.markInitialized ⟨[("x", ⟨T_INT, 0, false⟩), ("y", ⟨T_BOOL, 0, false⟩)]⟩
      "x").find? "y" = some ⟨T_BOOL, 0, false⟩ :=
  ⟨(markInitialized_frame ⟨[("x", ⟨T_INT, 0, false⟩)]⟩ "y").1 (by decide),
   ((markInitialized_frame ⟨[("x", ⟨T_INT, 0, false⟩), ("y", ⟨T_BOOL, 0, false⟩)]⟩ "x").2
      (by decide)).1 ⟨T_INT, 0, false⟩ (by decide),
   (((markInitialized_frame ⟨[("x", ⟨T_INT, 0, false⟩), ("y", ⟨T_BOOL, 0, false⟩)]⟩ "x").2
      (by decide)).2.1 "y" (by decide)).trans (by decide)⟩

/-! ## The end-of-input token -/

theorem ite_type_ne_eof {c : Prop} [Decidable c] {x y : Token}
    (hx : x.type ≠ T_EOF) (hy : y.type ≠ T_EOF) : (if c then x else y).type ≠ T_EOF := by
  by_cases hc : c
  · rw [if_pos hc]; exact hx
  · rw [if_neg hc]; exact hy

theorem wordToken_type_ne_eof (word : String) : (wordToken word).type ≠ T_EOF := by
  unfold wordToken
  repeat' apply ite_type_ne_eof
  all_goals exact fun h => TokenType.noConfusion h

theorem ite_ok_type_ne_eof {c : Prop} [Decidable c] {x y : Except LexError (Token × Nat)}
    (hx : ∀ r, x = .ok r → r.1.type ≠ T_EOF) (hy : ∀ r, y = .ok r → r.1.type ≠ T_EOF) :
    ∀ r, (if c then x else y) = .ok r → r.1.type ≠ T_EOF := by
  intro r h
  by_cases hc : c
  · rw [if_pos hc] at h; exact hx r h
  · rw [if_neg hc] at h; exact hy r h

theorem punctToken_type_ne_eof (src : List Char) (pos line : Nat) (current : Char) :
    ∀ r, punctToken src pos line current = .ok r → r.1.type ≠ T_EOF := by
  unfold punctToken
  repeat' apply ite_ok_type_ne_eof
  all_goals intro r h; cases h
  all_goals exact fun h => TokenType.noConfusion h

theorem tokenizeLoop_eof (fuel : Nat) (src : List Char) :
    ∀ (pos line : Nat) (tokens : List Token) (r : List Token × Nat),
      (∀ t ∈ tokens, t.type ≠ T_EOF) → tokenizeLoop fuel src pos line tokens = .ok r →
      ∃ pre, r.1 = pre ++ [⟨T_EOF, ""⟩] ∧ ∀ t ∈ pre, t.type ≠ T_EOF := by
  induction fuel with
  | zero => intro pos line tokens r _ h; cases h
  | succ n ih =>
    intro pos line tokens r htok h
    have hsnoc : ∀ t : Token, t.type ≠ T_EOF → ∀ u ∈ tokens ++ [t], u.type ≠ T_EOF := by
      intro t ht u hu
      rcases List.mem_append.mp hu with hu | hu
      · exact htok u hu
      · rw [List.mem_singleton.mp hu]; exact ht
    rw [tokenizeLoop] at h
    split at h
    · cases h
      exact ⟨tokens, rfl, htok⟩
    · rename_i current hcur
      simp only at h
      generalize (if (current == '\n') = true then line + 1 else line) = line' at h
      split_ifs at h
      · exact ih _ _ _ _ htok h
      · split at h
        · cases h
        · exact ih _ _ _ _ htok h
      · exact ih _ _ _ _ htok h
      · exact ih _ _ _ _ (hsnoc _ (fun h => TokenType.noConfusion h)) h
      · split at h
        · cases h
        · exact ih _ _ _ _ (hsnoc _ (fun h => TokenType.noConfusion h)) h
      · exact ih _ _ _ _ (hsnoc _ (wordToken_type_ne_eof _)) h
      · split at h
        · cases h
        · rename_i r' hr'
          exact ih _ _ _ _ (hsnoc _ (punctToken_type_ne_eof _ _ _ _ _ hr')) h

/-- C17: when `tokenize` succeeds, the token sequence is not empty, its last token is
`(T_EOF, "")`, and no token before the last has kind `T_EOF`. -/
theorem tokenize_ends_with_eof (src : String) (tokens : List Token)
    (h : tokenize src = .ok tokens) :
    tokens ≠ [] ∧ tokens.getLast? = some ⟨T_EOF, ""⟩ ∧
    ∃ pre, tokens = pre ++ [⟨T_EOF, ""⟩] ∧ ∀ t ∈ pre, t.type ≠ T_EOF := by
  unfold tokenize tokenizeWithLine at h
  cases hl : tokenizeLoop (src.length + 1) src.data 0 1 [] with
  | error e => rw [hl] at h; cases h
  | ok r =>
    rw [hl] at h
    have hr : r.1 = tokens := by
      simpa [Except.map] using h
    obtain ⟨pre, hpre, hne⟩ := tokenizeLoop_eof _ _ 0 1 [] r (by simp) hl
    rw [hr] at hpre
    refine ⟨?_, ?_, pre, hpre, hne⟩
    · rw [hpre]; simp
    · rw [hpre]; simp

theorem tokenize_ends_with_eof_witness :
    [⟨T_INT, "int"⟩, ⟨T_ID, "x"⟩, ⟨T_SEMICOLON, ";"⟩, ⟨T_EOF, ""⟩] ≠ ([] : List Token) ∧
    List.getLast? [⟨T_INT, "int"⟩, ⟨T_ID, "x"⟩, ⟨T_SEMICOLON, ";"⟩, ⟨T_EOF, ""⟩] =
      some (⟨T_EOF, ""⟩ : Token) ∧
    ∃ pre, [⟨T_INT, "int"⟩, ⟨T_ID, "x"⟩, ⟨T_SEMICOLON, ";"⟩, ⟨T_EOF, ""⟩] =
      pre ++ [(⟨T_EOF, ""⟩ : Token)] ∧ ∀ t ∈ pre, t.type ≠ T_EOF :=
  tokenize_ends_with_eof "int x;" _ (by decide!)

/-! ## Words: keywords and identifiers -/

theorem not_alpha_of_eq {c d : Char} (h : c.isAlpha = true) (hd : d.isAlpha = false) :
    (c == d) = false := by
  cases hcd : (c == d) with
  | false => rfl
  | true =>
    have : c = d := by simpa using hcd
    rw [this, hd] at h
    cases h

theorem isdigit_of_alpha {c : Char} (h : c.isAlpha = true) : isdigit c = false := by
  unfold isdigit
  cases hd : c.isDigit with
  | false => rfl
  | true =>
    exfalso
    simp only [Char.isAlpha, Char.isUpper, Char.isLower, Char.isDigit, Bool.or_eq_true,
      Bool.and_eq_true, decide_eq_true_eq] at h hd
    have h1 : 48 ≤ c.val.toNat := hd.1
    have h2 : c.val.toNat ≤ 57 := hd.2
    rcases h with h | h
    · have h3 : 65 ≤ c.val.toNat := h.1
      omega
    · have h3 : 97 ≤ c.val.toNat := h.1
      omega

theorem isspace_of_alpha {c : Char} (h : c.isAlpha = true) : isspace c = false := by
  simp [isspace, not_alpha_of_eq h (d := ' ') rfl, not_alpha_of_eq h (d := '\t') rfl,
    not_alpha_of_eq h (d := '\n') rfl, not_alpha_of_eq h (d := '\x0b') rfl,
    not_alpha_of_eq h (d := '\x0c') rfl, not_alpha_of_eq h (d := '\r') rfl]

theorem takeWhile_of_all {α : Type} (P : α → Bool) :
    ∀ l : List α, (∀ x ∈ l, P x = true) → l.takeWhile P = l := by
  intro l
  induction l with
  | nil => intro _; rfl
  | cons a as ih =>
    intro h
    rw [List.takeWhile_cons, h a (List.mem_cons_self a as),
      ih (fun x hx => h x (List.mem_cons_of_mem a hx))]
    rfl

/-- The tokenizer on a text that is one word: a letter followed by letters and digits. -/
theorem tokenizeLoop_word (fuel line : Nat) (c : Char) (cs : List Char)
    (hc : c.isAlpha = true) (hcs : ∀ x ∈ cs, x.isAlphanum = true) :
    tokenizeLoop (fuel + 2) (c :: cs) 0 line [] =
      .ok ([wordToken (String.mk (c :: cs)), ⟨T_EOF, ""⟩], line) := by
  have hall : ∀ x ∈ c :: cs, isalnum x = true := by
    intro x hx
    rcases List.mem_cons.mp hx with h | h
    · rw [h]; simp [isalnum, Char.isAlphanum, hc]
    · exact hcs x h
  have hrun : List.takeWhile isalnum (c :: cs) = c :: cs := takeWhile_of_all _ _ hall
  rw [tokenizeLoop]
  simp only [List.getElem?_cons_zero, not_alpha_of_eq hc (d := '\n') rfl,
    isspace_of_alpha hc, not_alpha_of_eq hc (d := '/') rfl, isdigit_of_alpha hc,
    not_alpha_of_eq hc (d := '"') rfl, isalpha, hc, consumeWord, List.drop_zero, hrun,
    Bool.false_and, Bool.false_eq_true, if_false, if_true, List.nil_append, Nat.zero_add]
  rw [tokenizeLoop]
  have hnone : (c :: cs)[(c :: cs).length]? = none := List.getElem?_eq_none (Nat.le_refl _)
  simp only [hnone]
  rfl

theorem ite_value_eq {c : Prop} [Decidable c] {x y : Token} {w : String}
    (hx : x.value = w) (hy : y.value = w) : (if c then x else y).value = w := by
  by_cases hc : c
  · rw [if_pos hc]; exact hx
  · rw [if_neg hc]; exact hy

theorem wordToken_value (w : String) : (wordToken w).value = w := by
  unfold wordToken
  repeat' apply ite_value_eq
  all_goals rfl

/-- C18: for a text `w` made of an ASCII letter followed by ASCII letters and digits,
`tokenize w` is exactly `[(k, w), (T_EOF, "")]`, where `k` is the keyword kind when `w` is
one of `int`, `float`, `double`, `string`, `bool`, `char`, `if`, `else`, `return`,
`while`, `for` (compared as whole strings, case-sensitively) and `T_ID` otherwise. -/
theorem tokenize_word (w : String) (c : Char) (cs : List Char) (hw : w.data = c :: cs)
    (hc : c.isAlpha = true) (hcs : ∀ x ∈ cs, x.isAlphanum = true) :
    ∃ k, tokenize w = .ok [⟨k, w⟩, ⟨T_EOF, ""⟩] ∧
      (w = "int" → k = T_INT) ∧ (w = "float" → k = T_FLOAT) ∧
      (w = "double" → k = T_DOUBLE) ∧ (w = "string" → k = T_STRING) ∧
      (w = "bool" → k = T_BOOL) ∧ (w = "char" → k = T_CHAR) ∧
      (w = "if" → k = T_IF) ∧ (w = "else" → k = T_ELSE) ∧
      (w = "return" → k = T_RETURN) ∧ (w = "while" → k = T_WHILE) ∧
      (w = "for" → k = T_FOR) ∧
      (w ∉ ["int", "float", "double", "string", "bool", "char", "if", "else", "return",
          "while", "for"] → k = T_ID) := by
  have hmk : String.mk (c :: cs) = w := by
    rw [← hw]
  have hlen : w.length = cs.length + 1 := by
    show w.data.length = cs.length + 1
    rw [hw]
    rfl
  have htok : wordToken w = ⟨(wordToken w).type, w⟩ := by
    have h : wordToken w = ⟨(wordToken w).type, (wordToken w).value⟩ := rfl
    rw [wordToken_value] at h
    exact h
  have hloop : tokenizeLoop (w.length + 1) w.data 0 1 [] =
      .ok ([⟨(wordToken w).type, w⟩, ⟨T_EOF, ""⟩], 1) := by
    have h := tokenizeLoop_word cs.length 1 c cs hc hcs
    rw [hmk, htok] at h
    rw [hlen, hw]
    exact h
  refine ⟨(wordToken w).type, ?_, ?_⟩
  · unfold tokenize tokenizeWithLine
    rw [hloop]
    rfl
  · refine ⟨?_, ?_, ?_, ?_, ?_, ?_, ?_, ?_, ?_, ?_, ?_, ?_⟩
    any_goals (intro h; rw [h]; rfl)
    intro h
    simp only [List.mem_cons, List.mem_singleton, not_or, List.mem_nil_iff, or_false] at h
    obtain ⟨h1, h2, h3, h4, h5, h6, h7, h8, h9, h10, h11⟩ := h
    unfold wordToken
    rw [if_neg h1, if_neg h2, if_neg h3, if_neg h4, if_neg h5, if_neg h6, if_neg h7,
      if_neg h8, if_neg h9, if_neg h10, if_neg h11]

theorem tokenize_word_witness :
    tokenize "iff" = .ok [⟨T_ID, "iff"⟩, ⟨T_EOF, ""⟩] ∧
    tokenize "int1" = .ok [⟨T_ID, "int1"⟩, ⟨T_EOF, ""⟩] ∧
    tokenize "Int" = .ok [⟨T_ID, "Int"⟩, ⟨T_EOF, ""⟩] ∧
    tokenize "int" = .ok [⟨T_INT, "int"⟩, ⟨T_EOF, ""⟩] := by
  refine ⟨?_, ?_, ?_, ?_⟩
  · obtain ⟨k, hk, h⟩ := tokenize_word "iff" 'i' ['f', 'f'] rfl (by decide) (by decide)
    rw [h.2.2.2.2.2.2.2.2.2.2.2 (by decide)] at hk
    exact hk
  · obtain ⟨k, hk, h⟩ := tokenize_word "int1" 'i' ['n', 't', '1'] rfl (by decide) (by decide)
    rw [h.2.2.2.2.2.2.2.2.2.2.2 (by decide)] at hk
    exact hk
  · obtain ⟨k, hk, h⟩ := tokenize_word "Int" 'I' ['n', 't'] rfl (by decide) (by decide)
    rw [h.2.2.2.2.2.2.2.2.2.2.2 (by decide)] at hk
    exact hk
  · obtain ⟨k, hk, h⟩ := tokenize_word "int" 'i' ['n', 't'] rfl (by decide) (by decide)
    rw [h.1 rfl] at hk
    exact hk

/-! ## Relations preserved by every parser operation -/

theorem post_ite_dep {α : Type} {c : Prop} [Decidable c] {x y : Except ParseError α}
    {Q : α → Prop} (hx : c → Post x Q) (hy : ¬c → Post y Q) : Post (if c then x else y) Q := by
  by_cases hc : c
  · simpa [hc] using hx hc
  · simpa [hc] using hy hc

theorem post_and {α : Type} {x : Except ParseError α} {Q R : α → Prop}
    (h1 : Post x Q) (h2 : Post x R) : Post x (fun a => Q a ∧ R a) :=
  fun a ha => ⟨h1 a ha, h2 a ha⟩

theorem cur_post (p : Parser) : Post p.cur (fun t => p.tokens[p.pos]? = some t) := by
  intro t ht
  unfold Parser.cur at ht
  cases h : p.tokens[p.pos]? with
  | none => rw [h] at ht; cases ht
  | some u => rw [h] at ht; cases ht; rfl

theorem isExprOp_ne_eof {t : TokenType} (h : isExprOp t = true) : t ≠ T_EOF := by
  rintro rfl
  exact absurd h (by decide)

theorem isTermOp_ne_eof {t : TokenType} (h : isTermOp t = true) : t ≠ T_EOF := by
  rintro rfl
  exact absurd h (by decide)

theorem exprOpStr_mem {t : TokenType} (h : isExprOp t = true) : exprOpStr t ∈ binaryOps := by
  cases t <;> first | exact absurd h (by decide) | decide

theorem expect_rel {R : Parser → Parser → Prop} (hR : ExprClosed R) (expected : TokenType)
    (hne : expected ≠ T_EOF) (p : Parser) : Post (expect expected p) (fun q => R p q) := by
  unfold expect
  refine post_bind (cur_post p) (fun t ht => post_ite_dep (fun h => ?_) (fun _ => post_error))
  exact post_ok (hR.advance p t ht (by rw [h]; exact hne))

theorem parseExpression_rel_all {R : Parser → Parser → Prop} (hR : ExprClosed R)
    (fuel : Nat) :
    (∀ p, Post (parseExpression fuel p) (fun r => R p r.2)) ∧
    (∀ lhs p, Post (parseExpressionLoop fuel lhs p) (fun r => R p r.2)) ∧
    (∀ p, Post (parseTerm fuel p) (fun r => R p r.2)) ∧
    (∀ lhs p, Post (parseTermLoop fuel lhs p) (fun r => R p r.2)) ∧
    (∀ p, Post (parseFactor fuel p) (fun r => R p r.2)) := by
  induction fuel with
  | zero =>
    refine ⟨?_, ?_, ?_, ?_, ?_⟩ <;> intros <;> exact post_error
  | succ n ih =>
    obtain ⟨hE, hEL, hT, hTL, hF⟩ := ih
    refine ⟨?_, ?_, ?_, ?_, ?_⟩
    · intro p
      rw [parseExpression]
      exact post_bind (hT p) (fun r hr => post_mono (hEL r.1 r.2) (fun _ h => hR.trans _ _ _ hr h))
    · intro lhs p
      rw [parseExpressionLoop]
      refine post_bind (cur_post p) (fun t ht =>
        post_ite_dep (fun hop => ?_) (fun _ => post_ok (hR.refl p)))
      refine post_bind (hT _) (fun r hr => post_mono (hEL _ _) (fun _ h => ?_))
      exact hR.trans _ _ _ (hR.trans _ _ _ (hR.advance p t ht (isExprOp_ne_eof hop)) hr)
        (hR.trans _ _ _ (hR.emit r.2 _ lhs r.1 (exprOpStr_mem hop)) h)
    · intro p
      rw [parseTerm]
      exact post_bind (hF p) (fun r hr => post_mono (hTL r.1 r.2) (fun _ h => hR.trans _ _ _ hr h))
    · intro lhs p
      rw [parseTermLoop]
      refine post_bind (cur_post p) (fun t ht =>
        post_ite_dep (fun hop => ?_) (fun _ => post_ok (hR.refl p)))
      refine post_bind (hF _) (fun r hr => post_mono (hTL _ _) (fun _ h => ?_))
      refine hR.trans _ _ _ (hR.trans _ _ _ (hR.advance p t ht (isTermOp_ne_eof hop)) hr)
        (hR.trans _ _ _ (hR.emit r.2 _ lhs r.1 ?_) h)
      by_cases hm : t.type = T_MUL
      · rw [if_pos hm]; decide
      · rw [if_neg hm]; decide
    · intro p
      rw [parseFactor]
      refine post_bind (cur_post p) (fun t ht => post_ite_dep (fun h1 => ?_) (fun _ =>
        post_ite_dep (fun h2 => ?_) (fun _ => post_ite_dep (fun h3 => ?_) (fun _ => post_error))))
      · exact post_ok (hR.advance p t ht (by rw [h1]; decide))
      · exact post_ok (hR.advance p t ht (by rw [h2]; decide))
      · refine post_bind (hE _) (fun r hr =>
          post_bind (expect_rel hR T_RPAREN (by decide) _) (fun q hq => ?_))
        exact post_ok (hR.trans _ _ _
          (hR.trans _ _ _ (hR.advance p t ht (by rw [h3]; decide)) hr) hq)

theorem parseExpression_rel {R : Parser → Parser → Prop} (hR : ExprClosed R) (fuel : Nat)
    (p : Parser) : Post (parseExpression fuel p) (fun r => R p r.2) :=
  (parseExpression_rel_all hR fuel).1 p

theorem post_self {α : Type} (x : Except ParseError α) : Post x (fun a => x = .ok a) :=
  fun _ h => h

theorem exprClosed_frame : ExprClosed Frame where
  refl := frame_refl
  trans := fun _ _ _ h1 h2 => frame_trans h1 h2
  advance := fun p _ _ _ => frame_advance p
  emit := fun p _ _ _ _ => frame_emit p _

theorem exprClosed_and {R S : Parser → Parser → Prop} (hR : ExprClosed R)
    (hS : ExprClosed S) : ExprClosed (fun p q => R p q ∧ S p q) where
  refl := fun p => ⟨hR.refl p, hS.refl p⟩
  trans := fun p q r h1 h2 => ⟨hR.trans p q r h1.1 h2.1, hS.trans p q r h1.2 h2.2⟩
  advance := fun p t ht hne => ⟨hR.advance p t ht hne, hS.advance p t ht hne⟩
  emit := fun p op lhs rhs hop => ⟨hR.emit p op lhs rhs hop, hS.emit p op lhs rhs hop⟩

theorem isTypeKeyword_ne_eof {t : TokenType} (h : isTypeKeyword t = true) : t ≠ T_EOF := by
  rintro rfl
  exact absurd h (by decide)

theorem parseDeclaration_rel {R : Parser → Parser → Prop} (hR : StepClosed R) (p : Parser)
    (h0 : ∀ t, p.tokens[p.pos]? = some t → R p p.advance) :
    Post (parseDeclaration p) (fun q => R p q) := by
  unfold parseDeclaration
  refine post_bind (cur_post p) (fun t ht => post_bind (cur_post p.advance) (fun t1 ht1 =>
    post_ite_dep (fun hid => ?_) (fun _ => post_error)))
  refine post_bind (post_self _) (fun st hst =>
    post_mono (expect_rel hR.expr T_SEMICOLON (by decide) _) (fun q hq => ?_))
  refine hR.expr.trans _ _ _ (h0 t ht) ?_
  refine hR.expr.trans _ _ _ (hR.declare p.advance _ _ st hst) ?_
  refine hR.expr.trans _ _ _ (hR.expr.advance _ t1 ht1 (by rw [hid]; decide)) hq

theorem parseAssignment_rel {R : Parser → Parser → Prop} (hR : StepClosed R) (fuel : Nat)
    (p : Parser) (h0 : ∀ t, p.tokens[p.pos]? = some t → R p p.advance) :
    Post (parseAssignment fuel p) (fun q => R p q) := by
  have hRF := exprClosed_and hR.expr exprClosed_frame
  unfold parseAssignment
  refine post_bind (cur_post p) (fun t ht =>
    post_ite_dep (fun _ => post_error) (fun hl => ?_))
  have hlook : p.symbolTable.lookup t.value = true := by
    cases h : p.symbolTable.lookup t.value with
    | true => rfl
    | false => rw [h] at hl; exact absurd rfl hl
  have h1 : R p p.advance ∧ Frame p p.advance := ⟨h0 t ht, frame_advance p⟩
  refine post_bind (expect_rel hRF T_ASSIGN (by decide) p.advance) (fun p2 h2 =>
    post_bind (cur_post p2) (fun t2 ht2 =>
      post_bind (Q := fun r => (R p2 r.2 ∧ Frame p2 r.2)) ?_ (fun r hr => post_ok ?_)))
  · refine post_ite_dep (fun hs => ?_) (fun _ => ?_)
    · refine post_bind (expect_rel hRF T_SEMICOLON (by decide) p2.advance) (fun p4 h4 => ?_)
      exact post_ok (hRF.trans _ _ _ (hRF.advance p2 t2 ht2 (by rw [hs]; decide)) h4)
    · refine post_bind (parseExpression_rel hRF fuel p2) (fun r hr =>
        post_bind (expect_rel hRF T_SEMICOLON (by decide) r.2) (fun p4 h4 => ?_))
      exact post_ok (hRF.trans _ _ _ hr h4)
  · have h3 := hRF.trans _ _ _ (hRF.trans _ _ _ h1 h2) hr
    have hst : r.2.symbolTable = p.symbolTable := h3.2.2.2.1
    refine hR.expr.trans _ _ _ h3.1 (hR.assign r.2 r.1 t.value ?_)
    rw [hst]
    exact hlook

theorem parseReturnStatement_rel {R : Parser → Parser → Prop} (hR : ExprClosed R)
    (fuel : Nat) (p : Parser) : Post (parseReturnStatement fuel p) (fun q => R p q) := by
  unfold parseReturnStatement
  refine post_bind (expect_rel hR T_RETURN (by decide) p) (fun q hq =>
    post_bind (parseExpression_rel hR fuel q) (fun r hr =>
      post_mono (expect_rel hR T_SEMICOLON (by decide) r.2) (fun s hs => ?_)))
  exact hR.trans _ _ _ (hR.trans _ _ _ hq hr) hs

theorem parseStatement_rel_all {R : Parser → Parser → Prop} (hR : StepClosed R)
    (fuel : Nat) :
    (∀ p, Post (parseStatement fuel p) (fun q => R p q)) ∧
    (∀ p, Post (parseBlock fuel p) (fun q => R p q)) ∧
    (∀ p, Post (parseBlockLoop fuel p) (fun q => R p q)) ∧
    (∀ p, Post (parseIfStatement fuel p) (fun q => R p q)) ∧
    (∀ p, Post (parseLoop fuel p) (fun q => R p q)) := by
  have hE := hR.expr
  induction fuel with
  | zero =>
    refine ⟨?_, ?_, ?_, ?_, ?_⟩ <;> intros <;> exact post_error
  | succ n ih =>
    obtain ⟨hS, hB, hBL, hI, hL⟩ := ih
    refine ⟨?_, ?_, ?_, ?_, ?_⟩
    · intro p
      rw [parseStatement]
      refine post_bind (cur_post p) (fun t ht => ?_)
      have h0 : t.type ≠ T_EOF → ∀ u, p.tokens[p.pos]? = some u → R p p.advance :=
        fun hne _ _ => hE.advance p t ht hne
      refine post_ite_dep (fun hk => parseDeclaration_rel hR p (h0 (isTypeKeyword_ne_eof hk)))
        (fun _ => post_ite_dep (fun hid => parseAssignment_rel hR n p (h0 (by rw [hid]; decide)))
          (fun _ => post_ite_dep (fun _ => hI p) (fun _ => post_ite_dep
            (fun _ => parseReturnStatement_rel hE n p) (fun _ => post_ite_dep (fun _ => hB p)
              (fun _ => post_ite_dep (fun _ => hL p) (fun _ => post_error))))))
    · intro p
      rw [parseBlock]
      refine post_bind (expect_rel hE T_LBRACE (by decide) p) (fun q hq =>
        post_bind (hBL q) (fun r hr =>
          post_mono (expect_rel hE T_RBRACE (by decide) r) (fun s hs => ?_)))
      exact hE.trans _ _ _ (hE.trans _ _ _ hq hr) hs
    · intro p
      rw [parseBlockLoop]
      refine post_bind (cur_post p) (fun t ht =>
        post_ite_dep (fun _ => ?_) (fun _ => post_ok (hE.refl p)))
      exact post_bind (hS p) (fun q hq => post_mono (hBL q) (fun r hr => hE.trans _ _ _ hq hr))
    · intro p
      rw [parseIfStatement]
      refine post_bind (expect_rel hE T_IF (by decide) p) (fun q1 h1 =>
        post_bind (expect_rel hE T_LPAREN (by decide) q1) (fun q2 h2 =>
          post_bind (parseExpression_rel hE n q2) (fun r hr =>
            post_bind (expect_rel hE T_RPAREN (by decide) r.2) (fun q3 h3 =>
              post_bind (hS q3) (fun q4 h4 => ?_)))))
      have h04 := hE.trans _ _ _ (hE.trans _ _ _ (hE.trans _ _ _ (hE.trans _ _ _ h1 h2) hr) h3) h4
      refine post_bind (cur_post q4) (fun t ht =>
        post_ite_dep (fun _ => ?_) (fun _ => post_ok h04))
      exact post_bind (expect_rel hE T_ELSE (by decide) q4) (fun q5 h5 =>
        post_mono (hS q5) (fun q6 h6 => hE.trans _ _ _ (hE.trans _ _ _ h04 h5) h6))
    · intro p
      rw [parseLoop]
      refine post_bind (cur_post p) (fun t ht => post_ite_dep (fun _ => ?_) (fun _ =>
        post_ite_dep (fun _ => ?_) (fun _ => post_ok (hE.refl p))))
      · refine post_bind (expect_rel hE T_WHILE (by decide) p) (fun q1 h1 =>
          post_bind (expect_rel hE T_LPAREN (by decide) q1) (fun q2 h2 =>
            post_bind (parseExpression_rel hE n q2) (fun r hr =>
              post_bind (expect_rel hE T_RPAREN (by decide) r.2) (fun q3 h3 =>
                post_mono (hS q3) (fun q4 h4 => ?_)))))
        exact hE.trans _ _ _ (hE.trans _ _ _ (hE.trans _ _ _ (hE.trans _ _ _ h1 h2) hr) h3) h4
      · refine post_bind (expect_rel hE T_FOR (by decide) p) (fun q1 h1 =>
          post_bind (expect_rel hE T_LPAREN (by decide) q1) (fun q2 h2 =>
            post_bind (hS q2) (fun q3 h3 =>
              post_bind (parseExpression_rel hE n q3) (fun r hr =>
                post_bind (expect_rel hE T_SEMICOLON (by decide) r.2) (fun q4 h4 =>
                  post_bind (hS q4) (fun q5 h5 =>
                    post_bind (expect_rel hE T_RPAREN (by decide) q5) (fun q6 h6 =>
                      post_mono (hS q6) (fun q7 h7 => ?_))))))))
        exact hE.trans _ _ _ (hE.trans _ _ _ (hE.trans _ _ _ (hE.trans _ _ _ (hE.trans _ _ _
          (hE.trans _ _ _ (hE.trans _ _ _ h1 h2) h3) hr) h4) h5) h6) h7

theorem parseStatement_rel {R : Parser → Parser → Prop} (hR : StepClosed R) (fuel : Nat)
    (p : Parser) : Post (parseStatement fuel p) (fun q => R p q) :=
  (parseStatement_rel_all hR fuel).1 p

theorem parseProgram_rel {R : Parser → Parser → Prop} (hR : StepClosed R) (fuel : Nat) :
    ∀ p, Post (parseProgram fuel p) (fun q => R p q) := by
  induction fuel with
  | zero => intro p; exact post_error
  | succ n ih =>
    intro p
    rw [parseProgram]
    refine post_bind (cur_post p) (fun t ht =>
      post_ite_dep (fun _ => ?_) (fun _ => post_ok (hR.expr.refl p)))
    exact post_bind (parseStatement_rel hR n p) (fun q hq =>
      post_mono (ih q) (fun r hr => hR.expr.trans _ _ _ hq hr))

/-! ## The decimal rendering of a number determines it -/

theorem stepClosed_extends : StepClosed Extends where
  expr :=
    { refl := fun _ => ⟨[], (List.append_nil _).symm⟩
      trans := by
        rintro p q r ⟨l1, h1⟩ ⟨l2, h2⟩
        exact ⟨l1 ++ l2, by rw [h2, h1, List.append_assoc]⟩
      advance := fun _ _ _ _ => ⟨[], (List.append_nil _).symm⟩
      emit := fun _ _ _ _ _ => ⟨_, rfl⟩ }
  declare := fun _ _ _ _ _ => ⟨[], (List.append_nil _).symm⟩
  assign := fun _ _ _ _ => ⟨_, rfl⟩

/-- C14: let the cursor stand on `if (` (resp. `while (`), let the condition parse
successfully to a state `q` that stands on `)`, and let the statement after it parse
successfully to a state `s`. Then `parseLoop` succeeds with exactly the state `s`, and so
does `parseIfStatement` when `s` does not stand on `else`; when `s` stands on `else` and
the statement after it parses to `s2`, `parseIfStatement` succeeds with exactly `s2`. The
instruction sequence of the result is that of the start, followed by what the condition
appended, followed by what the statement(s) appended: nothing is added for the
construct itself. -/
theorem control_flow_emits_nothing (fuel : Nat) (p q s : Parser) (kw lp rp : Token)
    (r : String)
    (hkw : p.tokens[p.pos]? = some kw) (hlp : p.tokens[p.pos + 1]? = some lp)
    (hlpt : lp.type = T_LPAREN)
    (he : parseExpression fuel p.advance.advance = .ok (r, q))
    (hrp : q.tokens[q.pos]? = some rp) (hrpt : rp.type = T_RPAREN)
    (hs : parseStatement fuel q.advance = .ok s) :
    (∃ ie is, q.tacGenerator.instructions = p.tacGenerator.instructions ++ ie ∧
      s.tacGenerator.instructions = p.tacGenerator.instructions ++ ie ++ is) ∧
    (kw.type = T_WHILE → parseLoop (fuel + 1) p = .ok s) ∧
    (kw.type = T_IF → ∀ nx, s.tokens[s.pos]? = some nx →
      (nx.type ≠ T_ELSE → parseIfStatement (fuel + 1) p = .ok s) ∧
      (nx.type = T_ELSE → ∀ s2, parseStatement fuel s.advance = .ok s2 →
        parseIfStatement (fuel + 1) p = .ok s2 ∧
        ∃ is2, s2.tacGenerator.instructions = s.tacGenerator.instructions ++ is2)) := by
  have hlp' : p.advance.tokens[p.advance.pos]? = some lp := hlp
  refine ⟨?_, ?_, ?_⟩
  · obtain ⟨ie, hie⟩ := parseExpression_rel stepClosed_extends.expr fuel _ _ he
    obtain ⟨is, his⟩ := parseStatement_rel stepClosed_extends fuel _ _ hs
    refine ⟨ie, is, hie, ?_⟩
    rw [his]
    show q.tacGenerator.instructions ++ is = _
    rw [hie]
    rfl
  · intro hwh
    rw [parseLoop]
    simp [expect, cur_of_get hkw, cur_of_get hlp', cur_of_get hrp, hwh, hlpt,
      hrpt, he, hs, bind, Except.bind]
  · intro hif nx hnx
    constructor
    · intro hne
      rw [parseIfStatement]
      simp [expect, cur_of_get hkw, cur_of_get hlp', cur_of_get hrp, cur_of_get hnx, hif,
        hlpt, hrpt, he, hs, hne, bind, Except.bind]
    · intro hel s2 hs2
      obtain ⟨is2, his2⟩ := parseStatement_rel stepClosed_extends fuel s.advance s2 hs2
      refine ⟨?_, is2, his2⟩
      rw [parseIfStatement]
      simp [expect, cur_of_get hkw, cur_of_get hlp', cur_of_get hrp, cur_of_get hnx, hif,
        hlpt, hrpt, he, hs, hel, hs2, bind, Except.bind]

theorem control_flow_emits_nothing_witness :
    parseIfStatement (5 + 1)
        ⟨ifElseTokens, 0, 1, ⟨[("a", ⟨T_INT, 0, false⟩)]⟩, 0, TACGenerator.fresh⟩ =
      .ok ⟨ifElseTokens, 15, 1, ⟨[("a", ⟨T_INT, 0, true⟩)]⟩, 0,
        ⟨[⟨"=", "1", "", "a"⟩, ⟨"+", "2", "3", "t0"⟩, ⟨"=", "t0", "", "a"⟩], 1⟩⟩ :=
  ((((control_flow_emits_nothing 5
    ⟨ifElseTokens, 0, 1, ⟨[("a", ⟨T_INT, 0, false⟩)]⟩, 0, TACGenerator.fresh⟩
    ⟨ifElseTokens, 3, 1, ⟨[("a", ⟨T_INT, 0, false⟩)]⟩, 0, TACGenerator.fresh⟩
    ⟨ifElseTokens, 8, 1, ⟨[("a", ⟨T_INT, 0, true⟩)]⟩, 0, ⟨[⟨"=", "1", "", "a"⟩], 0⟩⟩
    ⟨T_IF, "if"⟩ ⟨T_LPAREN, "("⟩ ⟨T_RPAREN, ")"⟩ "a"
    rfl rfl rfl (by decide!) rfl rfl (by decide!)).2.2 rfl ⟨T_ELSE, "else"⟩ rfl).2 rfl)
    ⟨ifElseTokens, 15, 1, ⟨[("a", ⟨T_INT, 0, true⟩)]⟩, 0,
      ⟨[⟨"=", "1", "", "a"⟩, ⟨"+", "2", "3", "t0"⟩, ⟨"=", "t0", "", "a"⟩], 1⟩⟩
    (by decide!)).1

/-! ## The tokenizer needs no more rounds than the text has characters -/

theorem skipLineComment_bounds :
    ∀ (l : List Char) (pos r : Nat), skipLineComment l pos = .ok r →
      pos ≤ r ∧ r < pos + l.length := by
  intro l
  induction l with
  | nil => intro pos r h; cases h
  | cons c cs ih =>
    intro pos r h
    rw [skipLineComment] at h
    by_cases hc : (c == '\n') = true
    · rw [if_pos hc] at h
      cases h
      exact ⟨Nat.le_refl _, by simp⟩
    · rw [if_neg hc] at h
      obtain ⟨h1, h2⟩ := ih _ _ h
      refine ⟨by omega, ?_⟩
      simp only [List.length_cons]
      omega

theorem skipLineComment_error :
    ∀ (l : List Char) (pos : Nat) (e : LexError), skipLineComment l pos = .error e →
      e = .outOfBounds := by
  intro l
  induction l with
  | nil => intro pos e h; cases h; rfl
  | cons c cs ih =>
    intro pos e h
    rw [skipLineComment] at h
    by_cases hc : (c == '\n') = true
    · rw [if_pos hc] at h; cases h
    · rw [if_neg hc] at h; exact ih _ _ h

theorem skipBlockComment_bounds :
    ∀ (l : List Char) (pos : Nat),
      pos ≤ skipBlockComment l pos ∧ skipBlockComment l pos ≤ pos + l.length := by
  intro l
  induction l with
  | nil => intro pos; exact ⟨Nat.le_refl _, Nat.le_refl _⟩
  | cons c cs ih =>
    intro pos
    rw [skipBlockComment]
    by_cases hc : (c == '*' && cs.head? == some '/') = true
    · rw [if_pos hc]
      have hcs : cs ≠ [] := by
        intro h
        rw [h] at hc
        simp at hc
      have : 1 ≤ cs.length := List.length_pos.mpr hcs
      simp only [List.length_cons]
      omega
    · rw [if_neg hc]
      obtain ⟨h1, h2⟩ := ih (pos + 1)
      simp only [List.length_cons]
      omega

theorem peek_pos {src : List Char} {pos : Nat} {c : Char}
    (h : (peek src pos == c) = true) (hc : c ≠ '\x00') : pos + 2 ≤ src.length := by
  unfold peek at h
  cases hs : src[pos + 1]? with
  | none =>
    rw [hs] at h
    have : ('\x00' : Char) = c := by simpa using h
    exact absurd this.symm hc
  | some d =>
    have := (List.getElem?_eq_some.mp hs).1
    omega

theorem ite_ok_dep {α : Type} {c : Prop} [Decidable c] {x y : Except LexError α}
    {Q : α → Prop} (hx : c → ∀ r, x = .ok r → Q r) (hy : ¬c → ∀ r, y = .ok r → Q r) :
    ∀ r, (if c then x else y) = .ok r → Q r := by
  intro r h
  by_cases hc : c
  · rw [if_pos hc] at h; exact hx hc r h
  · rw [if_neg hc] at h; exact hy hc r h

theorem punctToken_span (src : List Char) (pos line : Nat) (current : Char)
    (hpos : pos < src.length) :
    ∀ r, punctToken src pos line current = .ok r → 1 ≤ r.2 ∧ pos + r.2 ≤ src.length := by
  unfold punctToken
  repeat' (first | apply ite_ok_dep | intro _)
  all_goals rename_i r h
  all_goals cases h
  all_goals first
    | exact ⟨Nat.le_refl _, hpos⟩
    | exact ⟨by decide, peek_pos (by assumption) (by decide)⟩

theorem ite_error_ne {α : Type} {c : Prop} [Decidable c] {x y : Except LexError α}
    (hx : x ≠ .error .outOfFuel) (hy : y ≠ .error .outOfFuel) :
    (if c then x else y) ≠ .error .outOfFuel := by
  by_cases hc : c
  · rw [if_pos hc]; exact hx
  · rw [if_neg hc]; exact hy

theorem punctToken_ne_outOfFuel (src : List Char) (pos line : Nat) (current : Char) :
    punctToken src pos line current ≠ .error .outOfFuel := by
  unfold punctToken
  repeat' apply ite_error_ne
  all_goals exact fun h => by cases h

theorem takeWhile_run_bounds (P : Char → Bool) (src : List Char) (pos : Nat) (c : Char)
    (hc : src[pos]? = some c) (hP : P c = true) :
    1 ≤ ((src.drop pos).takeWhile P).length ∧
      pos + ((src.drop pos).takeWhile P).length ≤ src.length := by
  have hlt : pos < src.length := (List.getElem?_eq_some.mp hc).1
  have hle : ((src.drop pos).takeWhile P).length ≤ (src.drop pos).length :=
    (List.takeWhile_sublist P).length_le
  rw [List.length_drop] at hle
  refine ⟨?_, by omega⟩
  have hd : src.drop pos = c :: src.drop (pos + 1) := by
    have hget : src[pos] = c := (List.getElem?_eq_some.mp hc).2
    rw [← hget]
    exact List.drop_eq_getElem_cons hlt
  rw [hd, List.takeWhile_cons, hP]
  simp

theorem consumeString_bounds (src : List Char) (pos line : Nat) :
    (∀ r, consumeString src pos line = .ok r → pos < r.2 ∧ r.2 ≤ src.length) ∧
    consumeString src pos line ≠ .error .outOfFuel := by
  unfold consumeString
  simp only
  constructor
  · intro r h
    split_ifs at h with hc
    cases h
    simp only
    omega
  · split_ifs <;> exact fun h => by cases h

/-- Enough rounds: starting inside the text with more rounds left than characters left,
the main loop of the tokenizer does not run out of rounds. -/
theorem tokenizeLoop_ne_outOfFuel (src : List Char) :
    ∀ (fuel pos line : Nat) (tokens : List Token),
      pos ≤ src.length → src.length < fuel + pos →
      tokenizeLoop fuel src pos line tokens ≠ .error .outOfFuel := by
  intro fuel
  induction fuel with
  | zero => intro pos line tokens h1 h2; omega
  | succ n ih =>
    intro pos line tokens h1 h2
    rw [tokenizeLoop]
    cases hcur : src[pos]? with
    | none => exact fun h => by cases h
    | some current =>
      have hlt : pos < src.length := (List.getElem?_eq_some.mp hcur).1
      simp only
      generalize (if (current == '\n') = true then line + 1 else line) = line'
      by_cases hsp : isspace current = true
      · rw [if_pos hsp]
        exact ih _ _ _ (by omega) (by omega)
      rw [if_neg hsp]
      by_cases hlc : (current == '/' && peek src pos == '/') = true
      · rw [if_pos hlc]
        cases hsk : skipLineComment (List.drop (pos + 2) src) (pos + 2) with
        | error e =>
          rw [skipLineComment_error _ _ _ hsk]
          exact fun h => by cases h
        | ok r =>
          obtain ⟨hr1, hr2⟩ := skipLineComment_bounds _ _ _ hsk
          rw [List.length_drop] at hr2
          exact ih _ _ _ (by omega) (by omega)
      rw [if_neg hlc]
      by_cases hbc : (current == '/' && peek src pos == '*') = true
      · rw [if_pos hbc]
        have hp2 : pos + 2 ≤ src.length := by
          have : (peek src pos == '*') = true := by
            simp only [Bool.and_eq_true] at hbc
            exact hbc.2
          exact peek_pos this (by decide)
        obtain ⟨hb1, hb2⟩ := skipBlockComment_bounds (List.drop (pos + 2) src) (pos + 2)
        rw [List.length_drop] at hb2
        exact ih _ _ _ (by omega) (by omega)
      rw [if_neg hbc]
      by_cases hdg : isdigit current = true
      · rw [if_pos hdg]
        obtain ⟨hn1, hn2⟩ := takeWhile_run_bounds isdigit src pos current hcur hdg
        exact ih _ _ _ hn2 (by simp only [consumeNumber]; omega)
      rw [if_neg hdg]
      by_cases hq : (current == '"') = true
      · rw [if_pos hq]
        cases hcs : consumeString src pos line' with
        | error e =>
          intro h
          have : e = .outOfFuel := by cases h; rfl
          rw [this] at hcs
          exact (consumeString_bounds src pos line').2 hcs
        | ok r =>
          obtain ⟨hs1, hs2⟩ := (consumeString_bounds src pos line').1 r hcs
          exact ih _ _ _ hs2 (by omega)
      rw [if_neg hq]
      by_cases hal : isalpha current = true
      · rw [if_pos hal]
        have hal' : isalnum current = true := by
          simp only [isalpha] at hal
          simp [isalnum, Char.isAlphanum, hal]
        obtain ⟨hn1, hn2⟩ := takeWhile_run_bounds isalnum src pos current hcur hal'
        exact ih _ _ _ hn2 (by simp only [consumeWord]; omega)
      rw [if_neg hal]
      cases hpt : punctToken src pos line' current with
      | error e =>
        intro h
        have : e = .outOfFuel := by cases h; rfl
        rw [this] at hpt
        exact punctToken_ne_outOfFuel src pos line' current hpt
      | ok r =>
        obtain ⟨hp1, hp2⟩ := punctToken_span src pos line' current hlt r hpt
        exact ih _ _ _ hp2 (by omega)

/-- The number of rounds `tokenizeWithLine` allows is enough for every text. -/
theorem tokenize_ne_outOfFuel (src : String) : tokenize src ≠ .error .outOfFuel := by
  have h := tokenizeLoop_ne_outOfFuel src.data (src.length + 1) 0 1 []
    (Nat.zero_le _) (by show src.data.length < src.data.length + 1 + 0; omega)
  unfold tokenize tokenizeWithLine
  cases hl : tokenizeLoop (src.length + 1) src.data 0 1 [] with
  | ok r => exact fun h' => by cases h'
  | error e =>
    intro h'
    have : e = .outOfFuel := by cases h'; rfl
    rw [this] at hl
    exact h hl

/-! ## Comments at the end of the input -/

theorem skipLineComment_no_newline :
    ∀ (l : List Char) (pos : Nat), '\n' ∉ l → skipLineComment l pos = .error .outOfBounds := by
  intro l
  induction l with
  | nil => intro pos _; rfl
  | cons c cs ih =>
    intro pos h
    have hc : (c == '\n') = false := by
      cases hcn : (c == '\n') with
      | false => rfl
      | true =>
        have : c = '\n' := by simpa using hcn
        exact absurd (by rw [this]; exact List.mem_cons_self _ _) h
    have hcs : '\n' ∉ cs := fun hm => h (List.mem_cons_of_mem _ hm)
    rw [skipLineComment]
    simp only [hc, Bool.false_eq_true, if_false]
    exact ih _ hcs

/-- C16: when the main loop of the tokenizer stands on `//` and no newline follows in
the rest of the input, the comment loop runs to the end of the text and reads beyond it:
the result is `outOfBounds`, not a token sequence or a lexical error. This happens for
`int a; // hi` and for `//` alone. An unclosed `/*` comment, in contrast, ends the
tokenizing normally, and so does a `//` comment that is closed by a newline; and on
every text the main loop stops within `length + 1` rounds. -/
theorem tokenize_line_comment_reads_past_end :
    (∀ (fuel : Nat) (src : List Char) (pos line : Nat) (tokens : List Token),
      src[pos]? = some '/' → peek src pos = '/' → '\n' ∉ src.drop (pos + 2) →
        tokenizeLoop (fuel + 1) src pos line tokens = .error .outOfBounds) ∧
    tokenize "int a; // hi" = .error .outOfBounds ∧
    tokenize "//" = .error .outOfBounds ∧
    tokenize "int a; /* hi" = .ok [⟨T_INT, "int"⟩, ⟨T_ID, "a"⟩, ⟨T_SEMICOLON, ";"⟩, ⟨T_EOF, ""⟩] ∧
    tokenize "// hi\nint a;" =
      .ok [⟨T_INT, "int"⟩, ⟨T_ID, "a"⟩, ⟨T_SEMICOLON, ";"⟩, ⟨T_EOF, ""⟩] ∧
    (∀ src : String, tokenize src ≠ .error .outOfFuel) := by
  refine ⟨?_, by decide!, by decide!, by decide!, by decide!, tokenize_ne_outOfFuel⟩
  intro fuel src pos line tokens h hp hn
  rw [tokenizeLoop]
  simp [h, hp, isspace, skipLineComment_no_newline _ _ hn]

/-! ## Lowering is instruction by instruction -/

/-- The lines of one instruction do not depend on the listing built so far. -/
theorem lowerInstruction_append (code : List String) (instr : TACInstruction) :
    lowerInstruction code instr = code ++ lowerInstruction [] instr := by
  unfold lowerInstruction
  simp only
  repeat' split
  all_goals simp only [List.nil_append, List.append_assoc, List.append_nil]

theorem foldl_lowerInstruction (ys : List TACInstruction) :
    ∀ code, ys.foldl lowerInstruction code = code ++ ys.foldl lowerInstruction [] := by
  induction ys with
  | nil => intro code; simp
  | cons y ys ih =>
    intro code
    rw [List.foldl_cons, List.foldl_cons, ih (lowerInstruction code y),
      ih (lowerInstruction [] y), lowerInstruction_append code y, List.append_assoc]

/-- C21: the listing of `xs ++ ys` is the listing of `xs` followed by the listing of
`ys`; the listing of a sequence is the concatenation, in order, of the lines of its
instructions taken one by one. -/
theorem generateAssembly_append (xs ys : List TACInstruction) :
    generateAssembly (xs ++ ys) = generateAssembly xs ++ generateAssembly ys ∧
    generateAssembly xs = (xs.map (fun i => generateAssembly [i])).flatten := by
  constructor
  · unfold generateAssembly
    rw [List.foldl_append, foldl_lowerInstruction]
  · induction xs with
    | nil => rfl
    | cons x xs ih =>
      rw [List.map_cons, List.flatten_cons, ← ih]
      unfold generateAssembly
      rw [List.foldl_cons, foldl_lowerInstruction]
      rfl

/-! ## Instructions that lower to nothing -/

theorem splitAux_length_ge_count (d : Char) :
    ∀ (l token : List Char), l.count d ≤ (splitAux d l token).length := by
  intro l
  induction l with
  | nil => intro token; simp
  | cons c cs ih =>
    intro token
    rw [splitAux]
    by_cases hc : (c == d) = true
    · rw [if_pos hc, List.count_cons, if_pos hc, List.length_cons]
      exact Nat.succ_le_succ (ih [])
    · rw [if_neg hc, List.count_cons, if_neg hc]
      exact ih _

/-- The text built from an instruction has at least four spaces, hence at least four
pieces. -/
theorem split_instructionString_length (instr : TACInstruction) :
    4 ≤ (split (instructionString instr) ' ').length := by
  unfold split
  refine Nat.le_trans ?_ (splitAux_length_ge_count ' ' _ [])
  rw [instructionString_data]
  simp only [List.count_append, List.count_cons, List.count_nil]
  simp only [show (('=' : Char) == ' ') = false by decide,
    show ((' ' : Char) == ' ') = true by decide, if_true, Bool.false_eq_true, if_false]
  omega

/-- An instruction whose second operand is empty and whose other fields are free of
spaces is split into `result`, `=`, `arg1`, `op`: four pieces. -/
theorem split_instructionString_empty (instr : TACInstruction)
    (hr : ' ' ∉ instr.result.data) (h1 : ' ' ∉ instr.arg1.data) (ho : ' ' ∉ instr.op.data)
    (h2 : instr.arg2 = "") :
    split (instructionString instr) ' ' = [instr.result, "=", instr.arg1, instr.op] := by
  have h2' : instr.arg2.data = [] := by rw [h2]
  unfold split
  rw [instructionString_data, h2', splitAux_piece _ _ _ hr, splitAux]
  simp only [show (('=' : Char) == ' ') = false by decide, Bool.false_eq_true, if_false]
  rw [splitAux]
  simp only [show ((' ' : Char) == ' ') = true by decide, if_true]
  rw [splitAux_piece _ _ _ h1, splitAux_piece _ _ _ ho]
  simp [splitAux]

/-- C22: an instruction whose operator is `=`, `>`, `<`, `==`, `!=`, `&&` or `||`, whose
fields contain no space, and whose destination is none of `return`, `if`, `goto` and does
not begin with `L`, adds no line to the listing. The text rebuilt from any instruction
splits into at least four pieces, so the test `tokens.size() == 3` of the assignment
branch is false for every instruction. In particular `x = 5`, `y = t0` and `t0 = a < b`
lower to the empty listing. -/
theorem lowerInstruction_no_line :
    (∀ (code : List String) (instr : TACInstruction),
      instr.op ∈ ["=", ">", "<", "==", "!=", "&&", "||"] →
      ' ' ∉ instr.result.data → ' ' ∉ instr.arg1.data → ' ' ∉ instr.arg2.data →
      instr.result ∉ ["return", "if", "goto"] → startsWithL instr.result = false →
        lowerInstruction code instr = code ∧ generateAssembly [instr] = []) ∧
    (∀ instr : TACInstruction,
      4 ≤ (split (instructionString instr) ' ').length ∧
      (split (instructionString instr) ' ').length ≠ 3) ∧
    (generateAssembly [⟨"=", "5", "", "x"⟩] = [] ∧
      generateAssembly [⟨"=", "t0", "", "y"⟩] = [] ∧
      generateAssembly [⟨"<", "a", "b", "t0"⟩] = []) := by
  refine ⟨?_, ?_, by decide!⟩
  · have key : ∀ (code : List String) (instr : TACInstruction),
        instr.op ∈ ["=", ">", "<", "==", "!=", "&&", "||"] →
        ' ' ∉ instr.result.data → ' ' ∉ instr.arg1.data → ' ' ∉ instr.arg2.data →
        instr.result ∉ ["return", "if", "goto"] → startsWithL instr.result = false →
          lowerInstruction code instr = code := by
      intro code instr hop hr h1 h2 hres hL
      have hnosp : ' ' ∉ instr.op.data := by
        simp only [List.mem_cons, List.mem_singleton, List.mem_nil_iff, or_false] at hop
        rcases hop with h | h | h | h | h | h | h <;> rw [h] <;> decide
      have harith : ¬ (instr.op = "+" ∨ instr.op = "-" ∨ instr.op = "*" ∨ instr.op = "/") := by
        simp only [List.mem_cons, List.mem_singleton, List.mem_nil_iff, or_false] at hop
        rcases hop with h | h | h | h | h | h | h <;> rw [h] <;> decide
      simp only [List.mem_cons, List.mem_singleton, List.mem_nil_iff, or_false, not_or] at hres
      obtain ⟨hret, hif, hgoto⟩ := hres
      unfold lowerInstruction
      by_cases he : instr.arg2 = ""
      · rw [split_instructionString_empty instr hr h1 hnosp he]
        simp [harith, hret, hif, hgoto, hL]
      · rw [split_instructionString instr hr h1 hnosp h2 he]
        simp [harith, hret, hif, hgoto, hL]
    intro code instr hop hr h1 h2 hres hL
    exact ⟨key code instr hop hr h1 h2 hres hL, key [] instr hop hr h1 h2 hres hL⟩
  · intro instr
    have h := split_instructionString_length instr
    exact ⟨h, by omega⟩

theorem lowerInstruction_no_line_witness :
    lowerInstruction ["mov eax, [x]"] ⟨"==", "a", "b", "t3"⟩ = ["mov eax, [x]"] ∧
    generateAssembly [⟨"==", "a", "b", "t3"⟩] = [] :=
  lowerInstruction_no_line.1 ["mov eax, [x]"] ⟨"==", "a", "b", "t3"⟩
    (by decide) (by decide) (by decide) (by decide) (by decide) (by decide)

/-! ## The cursor stays at or before the first end-of-input token -/

theorem firstEof_lt_length : ∀ tokens : List Token,
    (∃ t ∈ tokens, t.type = T_EOF) → firstEof tokens < tokens.length := by
  intro tokens
  induction tokens with
  | nil => rintro ⟨t, ht, _⟩; cases ht
  | cons a as ih =>
    rintro ⟨t, ht, hte⟩
    rw [firstEof]
    by_cases ha : a.type = T_EOF
    · rw [if_pos ha]; simp
    · rw [if_neg ha]
      rcases List.mem_cons.mp ht with h | h
      · rw [h] at hte; exact absurd hte ha
      · have := ih ⟨t, h, hte⟩
        simp only [List.length_cons]
        omega

theorem lt_firstEof_of_ne : ∀ (tokens : List Token) (i : Nat) (t : Token),
    tokens[i]? = some t → t.type ≠ T_EOF → i ≤ firstEof tokens → i < firstEof tokens := by
  intro tokens
  induction tokens with
  | nil => intro i t h; simp at h
  | cons a as ih =>
    intro i t h hne hle
    rw [firstEof] at hle ⊢
    by_cases ha : a.type = T_EOF
    · rw [if_pos ha] at hle
      have hi : i = 0 := by omega
      rw [hi] at h
      simp only [List.getElem?_cons_zero, Option.some.injEq] at h
      rw [h] at ha
      exact absurd ha hne
    · rw [if_neg ha] at hle ⊢
      cases i with
      | zero => omega
      | succ j =>
        simp only [List.getElem?_cons_succ] at h
        have := ih j t h hne (by omega)
        omega

theorem inBounds_advance {p : Parser} {t : Token} (hp : InBounds p)
    (ht : p.tokens[p.pos]? = some t) (hne : t.type ≠ T_EOF) : InBounds p.advance := by
  have h := lt_firstEof_of_ne p.tokens p.pos t ht hne hp.1
  exact And.intro h hp.2

theorem good_bind {α β : Type} {x : Except ParseError α} {f : α → Except ParseError β}
    {Q : α → Prop} {R : β → Prop} (hx : Good x Q) (hf : ∀ a, Q a → Good (f a) R) :
    Good (x >>= f) R := by
  cases x with
  | error e =>
    refine ⟨fun h => hx.1 ?_, fun b hb => (by cases hb)⟩
    cases h
    rfl
  | ok a => exact hf a (hx.2 a rfl)

theorem good_ite_dep {α : Type} {c : Prop} [Decidable c] {x y : Except ParseError α}
    {Q : α → Prop} (hx : c → Good x Q) (hy : ¬c → Good y Q) : Good (if c then x else y) Q := by
  by_cases hc : c
  · rw [if_pos hc]; exact hx hc
  · rw [if_neg hc]; exact hy hc

theorem good_ok {α : Type} {a : α} {Q : α → Prop} (h : Q a) :
    Good (Except.ok a : Except ParseError α) Q :=
  ⟨fun h' => (by cases h'), fun b hb => (by cases hb; exact h)⟩

theorem good_error {α : Type} {e : ParseError} {Q : α → Prop} (he : e ≠ .outOfBounds) :
    Good (Except.error e : Except ParseError α) Q :=
  ⟨fun h => he (by cases h; rfl), fun b hb => (by cases hb)⟩

theorem good_mono {α : Type} {x : Except ParseError α} {Q R : α → Prop}
    (hx : Good x Q) (h : ∀ a, Q a → R a) : Good x R :=
  ⟨hx.1, fun a ha => h a (hx.2 a ha)⟩

/-- A read of `tokens[pos]` with the cursor in bounds succeeds. -/
theorem good_cur {p : Parser} (hp : InBounds p) :
    Good p.cur (fun t => p.tokens[p.pos]? = some t) := by
  have hlt : p.pos < p.tokens.length := Nat.lt_of_le_of_lt hp.1 hp.2
  unfold Parser.cur
  cases h : p.tokens[p.pos]? with
  | none =>
    have := List.getElem?_eq_none_iff.mp h
    omega
  | some t => exact good_ok rfl

theorem good_expect (expected : TokenType) (hne : expected ≠ T_EOF) {p : Parser}
    (hp : InBounds p) : Good (expect expected p) InBounds := by
  unfold expect
  refine good_bind (good_cur hp) (fun t ht =>
    good_ite_dep (fun h => ?_) (fun _ => good_error (fun h => by cases h)))
  exact good_ok (inBounds_advance hp ht (by rw [h]; exact hne))

theorem parseExpression_good_all (fuel : Nat) :
    (∀ p, InBounds p → Good (parseExpression fuel p) (fun r => InBounds r.2)) ∧
    (∀ lhs p, InBounds p → Good (parseExpressionLoop fuel lhs p) (fun r => InBounds r.2)) ∧
    (∀ p, InBounds p → Good (parseTerm fuel p) (fun r => InBounds r.2)) ∧
    (∀ lhs p, InBounds p → Good (parseTermLoop fuel lhs p) (fun r => InBounds r.2)) ∧
    (∀ p, InBounds p → Good (parseFactor fuel p) (fun r => InBounds r.2)) := by
  induction fuel with
  | zero =>
    refine ⟨?_, ?_, ?_, ?_, ?_⟩ <;> intros <;> exact good_error (fun h => by cases h)
  | succ n ih =>
    obtain ⟨hE, hEL, hT, hTL, hF⟩ := ih
    refine ⟨?_, ?_, ?_, ?_, ?_⟩
    · intro p hp
      rw [parseExpression]
      exact good_bind (hT p hp) (fun r hr => hEL r.1 r.2 hr)
    · intro lhs p hp
      rw [parseExpressionLoop]
      refine good_bind (good_cur hp) (fun t ht =>
        good_ite_dep (fun hop => ?_) (fun _ => good_ok hp))
      exact good_bind (hT _ (inBounds_advance hp ht (isExprOp_ne_eof hop)))
        (fun r hr => hEL _ _ hr)
    · intro p hp
      rw [parseTerm]
      exact good_bind (hF p hp) (fun r hr => hTL r.1 r.2 hr)
    · intro lhs p hp
      rw [parseTermLoop]
      refine good_bind (good_cur hp) (fun t ht =>
        good_ite_dep (fun hop => ?_) (fun _ => good_ok hp))
      exact good_bind (hF _ (inBounds_advance hp ht (isTermOp_ne_eof hop)))
        (fun r hr => hTL _ _ hr)
    · intro p hp
      rw [parseFactor]
      refine good_bind (good_cur hp) (fun t ht => good_ite_dep (fun h1 => ?_) (fun _ =>
        good_ite_dep (fun h2 => ?_) (fun _ => good_ite_dep (fun h3 => ?_)
          (fun _ => good_error (fun h => by cases h)))))
      · exact good_ok (inBounds_advance hp ht (by rw [h1]; decide))
      · exact good_ok (inBounds_advance hp ht (by rw [h2]; decide))
      · exact good_bind (hE _ (inBounds_advance hp ht (by rw [h3]; decide))) (fun r hr =>
          good_bind (good_expect T_RPAREN (by decide) hr) (fun q hq => good_ok hq))

theorem parseExpression_good (fuel : Nat) {p : Parser} (hp : InBounds p) :
    Good (parseExpression fuel p) (fun r => InBounds r.2) :=
  (parseExpression_good_all fuel).1 p hp

theorem good_insert (t : SymbolTable) (name : String) (type : TokenType) (lvl : Int) :
    Good (t.insert name type lvl) (fun _ => True) := by
  unfold SymbolTable.insert
  exact good_ite_dep (fun _ => good_ok True.intro) (fun _ => good_error (fun h => by cases h))

theorem parseDeclaration_good {p : Parser} (hp : InBounds p)
    (h0 : ∀ t, p.tokens[p.pos]? = some t → t.type ≠ T_EOF) :
    Good (parseDeclaration p) InBounds := by
  unfold parseDeclaration
  refine good_bind (good_cur hp) (fun t ht => ?_)
  have hp1 : InBounds p.advance := inBounds_advance hp ht (h0 t ht)
  refine good_bind (good_cur hp1) (fun t1 ht1 =>
    good_ite_dep (fun hid => ?_) (fun _ => good_error (fun h => by cases h)))
  refine good_bind (good_insert _ _ _ _) (fun st _ => ?_)
  have hp2 : InBounds { p.advance with symbolTable := st } := hp1
  exact good_expect T_SEMICOLON (by decide)
    (inBounds_advance hp2 ht1 (by rw [hid]; decide))

theorem parseAssignment_good (fuel : Nat) {p : Parser} (hp : InBounds p)
    (h0 : ∀ t, p.tokens[p.pos]? = some t → t.type ≠ T_EOF) :
    Good (parseAssignment fuel p) InBounds := by
  unfold parseAssignment
  refine good_bind (good_cur hp) (fun t ht =>
    good_ite_dep (fun _ => good_error (fun h => by cases h)) (fun _ => ?_))
  have hp1 : InBounds p.advance := inBounds_advance hp ht (h0 t ht)
  refine good_bind (good_expect T_ASSIGN (by decide) hp1) (fun p2 hp2 =>
    good_bind (good_cur hp2) (fun t2 ht2 =>
      good_bind (Q := fun r => InBounds r.2) ?_ (fun r hr => good_ok hr)))
  refine good_ite_dep (fun hs => ?_) (fun _ => ?_)
  · exact good_bind
      (good_expect T_SEMICOLON (by decide) (inBounds_advance hp2 ht2 (by rw [hs]; decide)))
      (fun p4 h4 => good_ok h4)
  · exact good_bind (parseExpression_good fuel hp2) (fun r hr =>
      good_bind (good_expect T_SEMICOLON (by decide) hr) (fun p4 h4 => good_ok h4))

theorem parseReturnStatement_good (fuel : Nat) {p : Parser} (hp : InBounds p) :
    Good (parseReturnStatement fuel p) InBounds := by
  unfold parseReturnStatement
  exact good_bind (good_expect T_RETURN (by decide) hp) (fun q hq =>
    good_bind (parseExpression_good fuel hq) (fun r hr =>
      good_expect T_SEMICOLON (by decide) hr))

theorem parseStatement_good_all (fuel : Nat) :
    (∀ p, InBounds p → Good (parseStatement fuel p) InBounds) ∧
    (∀ p, InBounds p → Good (parseBlock fuel p) InBounds) ∧
    (∀ p, InBounds p → Good (parseBlockLoop fuel p) InBounds) ∧
    (∀ p, InBounds p → Good (parseIfStatement fuel p) InBounds) ∧
    (∀ p, InBounds p → Good (parseLoop fuel p) InBounds) := by
  induction fuel with
  | zero =>
    refine ⟨?_, ?_, ?_, ?_, ?_⟩ <;> intros <;> exact good_error (fun h => by cases h)
  | succ n ih =>
    obtain ⟨hS, hB, hBL, hI, hL⟩ := ih
    refine ⟨?_, ?_, ?_, ?_, ?_⟩
    · intro p hp
      rw [parseStatement]
      refine good_bind (good_cur hp) (fun t ht => ?_)
      have h0 : t.type ≠ T_EOF → ∀ u, p.tokens[p.pos]? = some u → u.type ≠ T_EOF := by
        intro hne u hu
        rw [ht] at hu
        cases hu
        exact hne
      exact good_ite_dep (fun hk => parseDeclaration_good hp (h0 (isTypeKeyword_ne_eof hk)))
        (fun _ => good_ite_dep
          (fun hid => parseAssignment_good n hp (h0 (by rw [hid]; decide)))
          (fun _ => good_ite_dep (fun _ => hI p hp) (fun _ => good_ite_dep
            (fun _ => parseReturnStatement_good n hp) (fun _ => good_ite_dep (fun _ => hB p hp)
              (fun _ => good_ite_dep (fun _ => hL p hp)
                (fun _ => good_error (fun h => by cases h)))))))
    · intro p hp
      rw [parseBlock]
      exact good_bind (good_expect T_LBRACE (by decide) hp) (fun q hq =>
        good_bind (hBL q hq) (fun r hr => good_expect T_RBRACE (by decide) hr))
    · intro p hp
      rw [parseBlockLoop]
      refine good_bind (good_cur hp) (fun t ht =>
        good_ite_dep (fun _ => ?_) (fun _ => good_ok hp))
      exact good_bind (hS p hp) (fun q hq => hBL q hq)
    · intro p hp
      rw [parseIfStatement]
      refine good_bind (good_expect T_IF (by decide) hp) (fun q1 h1 =>
        good_bind (good_expect T_LPAREN (by decide) h1) (fun q2 h2 =>
          good_bind (parseExpression_good n h2) (fun r hr =>
            good_bind (good_expect T_RPAREN (by decide) hr) (fun q3 h3 =>
              good_bind (hS q3 h3) (fun q4 h4 => ?_)))))
      refine good_bind (good_cur h4) (fun t ht =>
        good_ite_dep (fun _ => ?_) (fun _ => good_ok h4))
      exact good_bind (good_expect T_ELSE (by decide) h4) (fun q5 h5 => hS q5 h5)
    · intro p hp
      rw [parseLoop]
      refine good_bind (good_cur hp) (fun t ht => good_ite_dep (fun _ => ?_) (fun _ =>
        good_ite_dep (fun _ => ?_) (fun _ => good_ok hp)))
      · exact good_bind (good_expect T_WHILE (by decide) hp) (fun q1 h1 =>
          good_bind (good_expect T_LPAREN (by decide) h1) (fun q2 h2 =>
            good_bind (parseExpression_good n h2) (fun r hr =>
              good_bind (good_expect T_RPAREN (by decide) hr) (fun q3 h3 => hS q3 h3))))
      · exact good_bind (good_expect T_FOR (by decide) hp) (fun q1 h1 =>
          good_bind (good_expect T_LPAREN (by decide) h1) (fun q2 h2 =>
            good_bind (hS q2 h2) (fun q3 h3 =>
              good_bind (parseExpression_good n h3) (fun r hr =>
                good_bind (good_expect T_SEMICOLON (by decide) hr) (fun q4 h4 =>
                  good_bind (hS q4 h4) (fun q5 h5 =>
                    good_bind (good_expect T_RPAREN (by decide) h5) (fun q6 h6 =>
                      hS q6 h6)))))))

theorem parseProgram_good (fuel : Nat) :
    ∀ p, InBounds p → Good (parseProgram fuel p) InBounds := by
  induction fuel with
  | zero => intro p _; exact good_error (fun h => by cases h)
  | succ n ih =>
    intro p hp
    rw [parseProgram]
    refine good_bind (good_cur hp) (fun t ht =>
      good_ite_dep (fun _ => ?_) (fun _ => good_ok hp))
    exact good_bind ((parseStatement_good_all n).1 p hp) (fun q hq => ih q hq)

theorem stepClosed_tokens : StepClosed (fun p q => q.tokens = p.tokens) where
  expr :=
    { refl := fun _ => rfl
      trans := fun _ _ _ h1 h2 => h2.trans h1
      advance := fun _ _ _ _ => rfl
      emit := fun _ _ _ _ _ => rfl }
  declare := fun _ _ _ _ _ => rfl
  assign := fun _ _ _ _ => rfl

/-- C23: a new parser on a token list that contains a `T_EOF` token has its cursor in
bounds (at or before the first `T_EOF`, which lies inside the list). From a state in
bounds, no parser operation fails through a read outside the token list, and each one
that succeeds ends in bounds again: `parseProgram`, `parseStatement`, `parseBlock`,
`parseIfStatement`, `parseLoop`, `parseReturnStatement`, `parseExpression`, `parseTerm`,
`parseFactor`, `expect` (of a kind other than `T_EOF`), and `parseDeclaration` and
`parseAssignment` when the token under the cursor is not `T_EOF`, as it is whenever
`parseStatement` calls them. So a `parseProgram` run on such a list ends in success or
in a syntax or semantic error, never in an out-of-bounds read, and a final cursor is not
past the first `T_EOF`. -/
theorem cursor_in_bounds :
    (∀ (tokens : List Token) (line : Nat), (∃ t ∈ tokens, t.type = T_EOF) →
      InBounds (Parser.init tokens line)) ∧
    (∀ (fuel : Nat) (p : Parser), InBounds p →
      Good (parseProgram fuel p) InBounds ∧
      Good (parseStatement fuel p) InBounds ∧
      Good (parseBlock fuel p) InBounds ∧
      Good (parseIfStatement fuel p) InBounds ∧
      Good (parseLoop fuel p) InBounds ∧
      Good (parseReturnStatement fuel p) InBounds ∧
      Good (parseExpression fuel p) (fun r => InBounds r.2) ∧
      Good (parseTerm fuel p) (fun r => InBounds r.2) ∧
      Good (parseFactor fuel p) (fun r => InBounds r.2) ∧
      (∀ expected, expected ≠ T_EOF → Good (expect expected p) InBounds) ∧
      ((∀ t, p.tokens[p.pos]? = some t → t.type ≠ T_EOF) →
        Good (parseDeclaration p) InBounds ∧ Good (parseAssignment fuel p) InBounds)) ∧
    (∀ (fuel : Nat) (tokens : List Token) (line : Nat), (∃ t ∈ tokens, t.type = T_EOF) →
      parseProgram fuel (Parser.init tokens line) ≠ .error .outOfBounds ∧
      ∀ p, parseProgram fuel (Parser.init tokens line) = .ok p →
        p.tokens = tokens ∧ p.pos ≤ firstEof tokens ∧ firstEof tokens < tokens.length) := by
  have hinit : ∀ (tokens : List Token) (line : Nat), (∃ t ∈ tokens, t.type = T_EOF) →
      InBounds (Parser.init tokens line) :=
    fun tokens line h => And.intro (Nat.zero_le _) (firstEof_lt_length tokens h)
  refine ⟨hinit, ?_, ?_⟩
  · intro fuel p hp
    exact ⟨parseProgram_good fuel p hp, (parseStatement_good_all fuel).1 p hp,
      (parseStatement_good_all fuel).2.1 p hp, (parseStatement_good_all fuel).2.2.2.1 p hp,
      (parseStatement_good_all fuel).2.2.2.2 p hp, parseReturnStatement_good fuel hp,
      parseExpression_good fuel hp, (parseExpression_good_all fuel).2.2.1 p hp,
      (parseExpression_good_all fuel).2.2.2.2 p hp,
      fun expected hne => good_expect expected hne hp,
      fun h0 => ⟨parseDeclaration_good hp h0, parseAssignment_good fuel hp h0⟩⟩
  · intro fuel tokens line h
    have hg := parseProgram_good fuel _ (hinit tokens line h)
    refine ⟨hg.1, fun p hp => ?_⟩
    have htok : p.tokens = tokens := parseProgram_rel stepClosed_tokens fuel _ p hp
    have hb : InBounds p := hg.2 p hp
    unfold InBounds at hb
    rw [htok] at hb
    exact ⟨htok, hb.1, hb.2⟩

theorem cursor_in_bounds_witness :
    parseProgram 9 (Parser.init exampleTokens 1) ≠ .error .outOfBounds ∧
    ∀ p, parseProgram 9 (Parser.init exampleTokens 1) = .ok p →
      p.tokens = exampleTokens ∧ p.pos ≤ firstEof exampleTokens ∧
        firstEof exampleTokens < exampleTokens.length :=
  cursor_in_bounds.2.2 9 exampleTokens 1 ⟨⟨T_EOF, ""⟩, by decide, rfl⟩

/-! ## The run on the machine: what every successful parse preserves -/

/-- Below `INT_MAX` the emitter with the unbounded counter and the emitter of the machine
give the same name and the same next counter. -/
theorem newTemp_exact_below_int_max (g : TACGenerator) (h : g.tempCount < 2147483647) :
    (Machine.TACGenerator.newTemp ⟨g.instructions, g.tempCount⟩).1 = g.newTemp.1 ∧
    (Machine.TACGenerator.newTemp ⟨g.instructions, g.tempCount⟩).2 =
      ⟨g.newTemp.2.instructions, g.newTemp.2.tempCount⟩ := by
  have hw : wrapInt32 ((g.tempCount : Int) + 1) = ((g.tempCount + 1 : Nat) : Int) := by
    unfold wrapInt32
    omega
  refine ⟨rfl, ?_⟩
  unfold Machine.TACGenerator.newTemp TACGenerator.newTemp
  simp only [hw]

theorem machine_cur_of_get {p : Machine.Parser} {t : Token} (h : p.tokens[p.pos]? = some t) :
    p.cur = .ok t := by
  simp [Machine.Parser.cur, h]

theorem machine_parseDeclaration_no_identifier {p : Machine.Parser} {ty t : Token}
    (hty : p.tokens[p.pos]? = some ty) (ht : p.tokens[p.pos + 1]? = some t)
    (hne : t.type ≠ T_ID) :
    Machine.parseDeclaration p = .error (.expectedIdentifier p.line, p.advance) := by
  have ht' : p.advance.tokens[p.advance.pos]? = some t := ht
  unfold Machine.parseDeclaration
  rw [machine_cur_of_get hty]
  show (p.advance.cur >>= _) = _
  rw [machine_cur_of_get ht']
  show (if t.type = T_ID then _ else _) = _
  rw [if_neg hne]
  rfl

/-- C15: when the token after the one under the cursor is not an identifier,
`parseDeclaration` stops the run with the syntax error `expected identifier after type`,
and the state at the exit has the scope table and the emitter (instruction sequence and
counter) of the state in which the declaration was entered: it is that state with the
cursor moved by one token. The same holds for `parseStatement` and for `parseProgram` when the token under
the cursor is a type keyword, from any state and with any fuel. Compiling `int ; x = 5;`
fails with that error on line 1, and at the exit the instruction sequence and the scope
table are empty. The parser that reports the diagnostic alone fails with the same
error. -/
theorem parseDeclaration_missing_identifier :
    (∀ (p : Machine.Parser) (ty t : Token),
      p.tokens[p.pos]? = some ty → p.tokens[p.pos + 1]? = some t → t.type ≠ T_ID →
        ∃ q : Machine.Parser,
          Machine.parseDeclaration p = .error (.expectedIdentifier p.line, q) ∧
          q.symbolTable = p.symbolTable ∧ q.tacGenerator = p.tacGenerator ∧
          q = { p with pos := p.pos + 1 } ∧
          (isTypeKeyword ty.type = true → ∀ fuel,
            Machine.parseStatement (fuel + 1) p = .error (.expectedIdentifier p.line, q) ∧
            Machine.parseProgram (fuel + 2) p = .error (.expectedIdentifier p.line, q))) ∧
    (∀ (p : Parser) (ty t : Token),
      p.tokens[p.pos]? = some ty → p.tokens[p.pos + 1]? = some t → t.type ≠ T_ID →
        parseDeclaration p = .error (.expectedIdentifier p.line) ∧
        (isTypeKeyword ty.type = true →
          ∀ fuel, parseStatement (fuel + 1) p = .error (.expectedIdentifier p.line))) ∧
    (∀ extra : Nat,
      (∃ q : Machine.Parser,
        Machine.compile (2 + extra) "int ; x = 5;" =
          .error (.parsing (.expectedIdentifier 1), some q) ∧
        q.tacGenerator.instructions = [] ∧ q.symbolTable.symbols = [] ∧
        q.tacGenerator.tempCount = 0 ∧ q.pos = 1) ∧
      compile (2 + extra) "int ; x = 5;" = .error (.parsing (.expectedIdentifier 1))) := by
  have hgen : ∀ (p : Machine.Parser) (ty t : Token),
      p.tokens[p.pos]? = some ty → p.tokens[p.pos + 1]? = some t → t.type ≠ T_ID →
      isTypeKeyword ty.type = true → ∀ fuel,
        Machine.parseStatement (fuel + 1) p = .error (.expectedIdentifier p.line, p.advance) ∧
        Machine.parseProgram (fuel + 2) p = .error (.expectedIdentifier p.line, p.advance) := by
    intro p ty t hty ht hne hk fuel
    have hD := machine_parseDeclaration_no_identifier hty ht hne
    have hS : ∀ fuel, Machine.parseStatement (fuel + 1) p =
        .error (.expectedIdentifier p.line, p.advance) := by
      intro fuel
      rw [Machine.parseStatement, machine_cur_of_get hty]
      show (if isTypeKeyword ty.type = true then _ else _) = _
      rw [if_pos hk, hD]
    refine ⟨hS fuel, ?_⟩
    rw [Machine.parseProgram, machine_cur_of_get hty]
    show (if ty.type ≠ T_EOF then _ else _) = _
    rw [if_pos (isTypeKeyword_ne_eof hk), hS fuel]
    rfl
  refine ⟨?_, ?_, ?_⟩
  · intro p ty t hty ht hne
    exact ⟨p.advance, machine_parseDeclaration_no_identifier hty ht hne, rfl, rfl, rfl,
      fun hk fuel => hgen p ty t hty ht hne hk fuel⟩
  · intro p ty t hty ht hne
    have hD : parseDeclaration p = .error (.expectedIdentifier p.line) := by
      simp [parseDeclaration, Parser.cur, Parser.advance, hty, ht, hne, bind, Except.bind]
    refine ⟨hD, fun hk fuel => ?_⟩
    rw [parseStatement]
    simp [cur_of_get hty, hk, hD, bind, Except.bind]
  · intro extra
    have htok : tokenizeWithLine "int ; x = 5;" =
        .ok ([⟨T_INT, "int"⟩, ⟨T_SEMICOLON, ";"⟩, ⟨T_ID, "x"⟩, ⟨T_ASSIGN, "="⟩,
          ⟨T_NUM, "5"⟩, ⟨T_SEMICOLON, ";"⟩, ⟨T_EOF, ""⟩], 1) := by decide!
    refine ⟨⟨(Machine.Parser.init [⟨T_INT, "int"⟩, ⟨T_SEMICOLON, ";"⟩, ⟨T_ID, "x"⟩,
      ⟨T_ASSIGN, "="⟩, ⟨T_NUM, "5"⟩, ⟨T_SEMICOLON, ";"⟩, ⟨T_EOF, ""⟩] 1).advance,
      ?_, rfl, rfl, rfl, rfl⟩, compile_fuel_add (by decide!) (by simp) extra⟩
    have hP := (hgen (Machine.Parser.init [⟨T_INT, "int"⟩, ⟨T_SEMICOLON, ";"⟩, ⟨T_ID, "x"⟩,
      ⟨T_ASSIGN, "="⟩, ⟨T_NUM, "5"⟩, ⟨T_SEMICOLON, ";"⟩, ⟨T_EOF, ""⟩] 1)
      ⟨T_INT, "int"⟩ ⟨T_SEMICOLON, ";"⟩ rfl rfl (by decide) (by decide) extra).2
    simp only [Machine.compile, htok, Nat.add_comm 2 extra, hP]
    rfl

theorem parseDeclaration_missing_identifier_witness :
    ∃ q : Machine.Parser,
      Machine.parseDeclaration midRun = .error (.expectedIdentifier 1, q) ∧
      q.symbolTable.symbols = [("x", ⟨T_INT, 0, true⟩)] ∧
      q.tacGenerator = ⟨[⟨"+", "1", "2", "t0"⟩, ⟨"=", "t0", "", "x"⟩], 1⟩ ∧
      Machine.parseProgram 2 midRun = .error (.expectedIdentifier 1, q) ∧
      Machine.parseProgram 8 (Machine.Parser.init midRun.tokens 1) =
        .error (.expectedIdentifier 1, q) := by
  obtain ⟨q, h1, h2, h3, h4, h5⟩ :=
    parseDeclaration_missing_identifier.1 midRun ⟨T_INT, "int"⟩ ⟨T_SEMICOLON, ";"⟩
      rfl rfl (by decide)
  refine ⟨q, h1, by rw [h2]; rfl, by rw [h3]; rfl, (h5 (by decide) 0).2, ?_⟩
  rw [h4]
  decide!

end CompilerLab
